import Mathlib

/-!
# Capt-validator: caption parsing and coverage

A shallow embedding of `main.go` (caption-track parser, timestamp parsers and coverage
calculator) together with the properties stated about it.

Modelling conventions.

* Go `float64` values are finite values held as rationals (`ℚ`).  The program is read at two
  levels.  In the exact reading (`calcCoverage`, `coverageCheck`, the timestamp parsers) every
  arithmetic operation is exact.  In the binary64 reading (`calcCoverageF64`,
  `coverageCheckF64`) every arithmetic operation is followed by `roundF64`, the IEEE-754
  rounding to the nearest binary64 value, ties to even; it is used where rounding decides a
  property.  Infinities, NaN and overflow are outside both readings.
* Go `int` is the 64-bit signed integer: `Int` with explicit wrap-around (`wrapInt`).
* Go strings are Lean strings, processed through their character lists.
* The input file is the list of lines delivered by `bufio.Scanner`; opening the file and the
  scanner's own error are outside the model.
* A Go runtime panic is the result `none` of the parser.
-/

namespace CaptValidator

/-! ## Data model -/

/-- Caption struct of `main.go`: one timed unit of caption text. -/
structure Caption where
  Start : ℚ
  End : ℚ
  Text : String
  deriving DecidableEq

/-- ValidationError struct of `main.go`: one failed validation (`Type_` is the field `Type`).
`Details` is never set by the program (`none` is the omitted field). -/
structure ValidationError where
  Type_ : String
  Description : String
  Details : Option String
  deriving DecidableEq

/-! ## Go standard library: integers and strings -/

/-- Largest value of the 64-bit Go `int`. -/
def maxInt : Int := 2 ^ 63 - 1

/-- Smallest value of the 64-bit Go `int`. -/
def minInt : Int := -(2 ^ 63)

/-- Largest value of `uint64`, the accumulator of `strconv.ParseUint`. -/
def maxUint64 : Nat := 2 ^ 64 - 1

/-- Two's-complement wrap-around of 64-bit signed arithmetic. -/
def wrapInt (x : Int) : Int := (x + 2 ^ 63) % 2 ^ 64 - 2 ^ 63

/-- Decimal digit test, `'0' <= c <= '9'` (also the regexp class `\d`). -/
def isDigit (c : Char) : Bool := decide (48 ≤ c.toNat) && decide (c.toNat ≤ 57)

/-- Value of a decimal digit, `c - '0'`. -/
def digitVal (c : Char) : Nat := c.toNat - 48

/-- Function `unicode.IsSpace`: the white-space code points trimmed by `strings.TrimSpace`. -/
def isSpace (c : Char) : Bool :=
  let n := c.toNat
  (decide (9 ≤ n) && decide (n ≤ 13)) || n == 32 || n == 0x85 || n == 0xA0 || n == 0x1680
    || (decide (0x2000 ≤ n) && decide (n ≤ 0x200A)) || n == 0x2028 || n == 0x2029
    || n == 0x202F || n == 0x205F || n == 0x3000

/-- Character-list form of `strings.TrimSpace`. -/
def trimChars (l : List Char) : List Char :=
  ((l.dropWhile isSpace).reverse.dropWhile isSpace).reverse

/-- Function `strings.TrimSpace`. -/
def TrimSpace (s : String) : String := ⟨trimChars s.data⟩

/-- Digit loop of `strconv.ParseUint` (base 10, 64 bits) with accumulator `n`:
`none` is a syntax error, a range error yields the clamped value `maxUint64`. -/
def parseUintLoop : List Char → Nat → Option Nat
  | [], n => some n
  | c :: cs, n =>
    if !isDigit c then none
    else if n ≥ maxUint64 / 10 + 1 then some maxUint64
    else if n * 10 + digitVal c > maxUint64 then some maxUint64
    else parseUintLoop cs (n * 10 + digitVal c)

/-- Character-list form of `strconv.Atoi` with the error result dropped, as every call site
does (`x, _ := strconv.Atoi(..)`): `0` on a syntax error, the nearest bound on a range error. -/
def atoiChars : List Char → Int
  | [] => 0
  | c :: cs =>
    let neg := c == '-'
    let ds := if c == '+' || c == '-' then cs else c :: cs
    if ds.isEmpty then 0
    else
      match parseUintLoop ds 0 with
      | none => 0
      | some un =>
        if !neg && decide (un ≥ 2 ^ 63) then maxInt
        else if neg && decide (un > 2 ^ 63) then minInt
        else if neg then -(un : Int)
        else (un : Int)

/-- Function `strconv.Atoi`, error dropped. -/
def Atoi (s : String) : Int := atoiChars s.data

/-- Loop of `strings.Split` for a non-empty separator: `skip` counts the characters of a
separator occurrence still to be consumed, `cur` is the current piece, reversed. -/
def splitGo (sep : List Char) : List Char → Nat → List Char → List (List Char)
  | [], _, cur => [cur.reverse]
  | _ :: cs, skip + 1, cur => splitGo sep cs skip cur
  | c :: cs, 0, cur =>
    if sep.isPrefixOf (c :: cs) then cur.reverse :: splitGo sep cs (sep.length - 1) []
    else splitGo sep cs 0 (c :: cur)

/-- Function `strings.Split` (for the non-empty separators the program uses). -/
def Split (s sep : String) : List String :=
  (splitGo sep.data s.data 0 []).map String.mk

/-- Character-list form of `strings.Contains`. -/
def containsChars (sub : List Char) : List Char → Bool
  | [] => sub.isEmpty
  | c :: cs => sub.isPrefixOf (c :: cs) || containsChars sub cs

/-- Function `strings.Contains`. -/
def Contains (s sub : String) : Bool := containsChars sub.data s.data

/-- Function `strings.Join`. -/
def Join (elems : List String) (sep : String) : String := sep.intercalate elems

/-! ## The SRT timing pattern

`(\d{2}):(\d{2}):(\d{2}),(\d+) --> (\d{2}):(\d{2}):(\d{2}),(\d+)`, unanchored, with Go's
leftmost-first semantics.  Every `\d{2}` has a fixed width and every `\d+` is followed either
by a non-digit literal or by the end of the pattern, so the greedy match at a given position is
unique: each `\d+` takes the maximal run of digits. -/

/-- Matches `\d{2}`: the two digits and the rest. -/
def takeTwoDigits : List Char → Option (List Char × List Char)
  | a :: b :: rest => if isDigit a && isDigit b then some ([a, b], rest) else none
  | _ => none

/-- Matches `\d+` greedily: the maximal non-empty run of digits and the rest. -/
def takeDigits (s : List Char) : Option (List Char × List Char) :=
  if (s.takeWhile isDigit).isEmpty then none
  else some (s.takeWhile isDigit, s.dropWhile isDigit)

/-- Matches a literal: the rest after it. -/
def expectLit (lit s : List Char) : Option (List Char) :=
  if lit.isPrefixOf s then some (s.drop lit.length) else none

/-- Matches `(\d{2}):(\d{2}):(\d{2}),(\d+)` at the head: four captures and the rest. -/
def matchStamp (s : List Char) : Option (List (List Char) × List Char) := do
  let (h, r1) ← takeTwoDigits s
  let r2 ← expectLit [':'] r1
  let (m, r3) ← takeTwoDigits r2
  let r4 ← expectLit [':'] r3
  let (sec, r5) ← takeTwoDigits r4
  let r6 ← expectLit [','] r5
  let (ms, r7) ← takeDigits r6
  pure ([h, m, sec, ms], r7)

/-- Matches the whole timing pattern at the head of `s`: the eight captures. -/
def matchSrtAt (s : List Char) : Option (List (List Char)) := do
  let (g1, r1) ← matchStamp s
  let r2 ← expectLit [' ', '-', '-', '>', ' '] r1
  let (g2, _) ← matchStamp r2
  pure (g1 ++ g2)

/-- Leftmost match of the timing pattern anywhere in `s`: the eight captures. -/
def findSrt : List Char → Option (List (List Char))
  | [] => none
  | c :: cs =>
    match matchSrtAt (c :: cs) with
    | some g => some g
    | none => findSrt cs

/-- The capture groups `m[1..8]` of `srtTime.FindStringSubmatch(line)`, `none` when the line
does not match. -/
def FindStringSubmatch (line : String) : Option (List String) :=
  (findSrt line.data).map (fun g => g.map String.mk)

/-- Function `srtTime.MatchString(line)`. -/
def MatchString (line : String) : Bool := (FindStringSubmatch line).isSome

/-! ## Timestamp parsers -/

/-- Source `hmsToSeconds`. -/
def hmsToSeconds (h m s ms : String) : ℚ :=
  let hh := Atoi h
  let mm := Atoi m
  let ss := Atoi s
  let msec := Atoi ms
  ((wrapInt (hh * 3600 + mm * 60 + ss) : Int) : ℚ) + ((msec : Int) : ℚ) / 1000

/-- Source `parseVTTTime`: the value and the error (`none` is Go's `nil`). -/
def parseVTTTime (s : String) : ℚ × Option String :=
  match Split s ":" with
  | [p0, p1, p2] =>
    let h := Atoi p0
    let m := Atoi p1
    let secParts := Split p2 "."
    let sec := Atoi (secParts.headD "")
    let ms := match secParts with
      | _ :: f :: _ => Atoi f
      | _ => 0
    (((wrapInt (h * 3600 + m * 60 + sec + Int.tdiv ms 1000) : Int) : ℚ), none)
  | _ => (0, some ("invalid VTT time: " ++ s))

/-! ## Caption track parser -/

/-- The local variables of `parseCaptions` that the line loop updates. -/
structure ParseState where
  captions : List Caption
  text : List String
  start : ℚ
  end_ : ℚ
  deriving DecidableEq

/-- State at loop entry: `var captions []Caption; var text []string; var start, end float64`. -/
def ParseState.init : ParseState := ⟨[], [], 0, 0⟩

/-- Closing of the pending segment: `if text != nil { captions = append(..); text = nil }`.
A nil slice is the empty list: `text` only ever grows by `append`, so it is non-nil exactly
when it is non-empty. -/
def flush (st : ParseState) : ParseState :=
  if st.text ≠ [] then
    { st with captions := st.captions ++ [⟨st.start, st.end_, Join st.text " "⟩], text := [] }
  else st

/-- Body of the `for scanner.Scan()` loop on one raw line; `none` is a runtime panic
(`parts[1]` out of range). -/
def step (ext : String) (st : ParseState) (raw : String) : Option ParseState :=
  let line := TrimSpace raw
  if line = "" then some (flush st)
  else if ext = ".srt" ∧ MatchString line = true then
    match FindStringSubmatch line with
    | some [m1, m2, m3, m4, m5, m6, m7, m8] =>
      some { st with start := hmsToSeconds m1 m2 m3 m4, end_ := hmsToSeconds m5 m6 m7 m8 }
    | _ => none
  else if ext = ".vtt" ∧ Contains line "-->" = true then
    match Split line " --> " with
    | p0 :: p1 :: _ =>
      some { st with start := (parseVTTTime p0).1, end_ := (parseVTTTime p1).1 }
    | _ => none
  else some { st with text := st.text ++ [line] }

/-- The `for scanner.Scan()` loop over the remaining lines. -/
def parseLoop (ext : String) : ParseState → List String → Option ParseState
  | st, [] => some st
  | st, l :: ls =>
    match step ext st l with
    | none => none
    | some st1 => parseLoop ext st1 ls

/-- Source `parseCaptions`, on the lines of the opened file: the returned track, `none` when
the loop panics. -/
def parseCaptions (lines : List String) (ext : String) : Option (List Caption) :=
  (parseLoop ext ParseState.init lines).map (fun st => (flush st).captions)

/-! ## Specification-level notions for timestamps -/

/-- The decimal value of a digit string, most significant digit first. -/
def decimalValue (s : String) : Nat := Nat.ofDigits 10 (s.data.reverse.map digitVal)

/-- A non-empty string of decimal digits, as captured by `\d+`. -/
def isDigitString (s : String) : Bool := !s.data.isEmpty && s.data.all isDigit

/-- A string of exactly two decimal digits, as captured by `\d{2}`. -/
def isTwoDigits (s : String) : Bool := s.data.length == 2 && s.data.all isDigit

/-! ## Specification-level notions for the track parser -/

/-- A line that is blank after trimming. -/
def isBlankLine (raw : String) : Bool := decide (TrimSpace raw = "")

/-- A trimmed line that the active format takes for a timing marker: the SRT pattern matches
it, or (VTT) it contains `-->`. -/
def isTiming (ext line : String) : Bool :=
  (decide (ext = ".srt") && MatchString line) || (decide (ext = ".vtt") && Contains line "-->")

/-- The text lines of a block: its trimmed lines that are not timing markers. -/
def blockTextLines (ext : String) (block : List String) : List String :=
  (block.map TrimSpace).filter (fun l => !isTiming ext l)

/-- The texts of a file, block by block: the input is cut at its blank lines, every block
with at least one text line gives the single-space join of its text lines. -/
def blockTexts (ext : String) (lines : List String) : List String :=
  (((lines.splitOnP isBlankLine).map (blockTextLines ext)).filter
    (fun b => !b.isEmpty)).map (fun b => Join b " ")

/-- The texts of a file when only the lines after a block's timing marker count: every block
is cut at its first timing marker and the lines before it are dropped. -/
def textsAfterMarker (ext : String) (lines : List String) : List String :=
  (((lines.splitOnP isBlankLine).map
      (fun b => blockTextLines ext (b.dropWhile (fun l => !isTiming ext (TrimSpace l))))).filter
    (fun b => !b.isEmpty)).map (fun b => Join b " ")

/-- The texts still to come out of the loop: `pending` is the text buffer, `blocks` the text
lines of the remaining blocks, the first of which continues the buffer. -/
def pendingTexts (pending : List String) (blocks : List (List String)) : List String :=
  ((blocks.modifyHead (fun b => pending ++ b)).filter (fun b => !b.isEmpty)).map
    (fun b => Join b " ")

/-- Loop invariant: every closed segment has text and every buffered line is non-empty. -/
def TextInv (st : ParseState) : Prop :=
  (∀ c ∈ st.captions, c.Text ≠ "") ∧ (∀ l ∈ st.text, l ≠ "")

/-- The start and end that a (trimmed, non-blank) timing line records: the two
`hmsToSeconds` values of the SRT captures, or the two `parseVTTTime` values of the first two
parts of the VTT split. -/
def lineTiming (ext line : String) : ℚ × ℚ :=
  if ext = ".srt" then
    match FindStringSubmatch line with
    | some [m1, m2, m3, m4, m5, m6, m7, m8] =>
      (hmsToSeconds m1 m2 m3 m4, hmsToSeconds m5 m6 m7 m8)
    | _ => (0, 0)
  else
    match Split line " --> " with
    | p0 :: p1 :: _ => ((parseVTTTime p0).1, (parseVTTTime p1).1)
    | _ => (0, 0)

/-- The timing lines among some lines of the file, in file order. -/
def timingLines (ext : String) (lines : List String) : List String :=
  lines.filter (fun l => isTiming ext (TrimSpace l))

/-- The timing in force after `lines` when it was `cur` before them: that of the last timing
line among them, `cur` when there is none. -/
def lastTimingFrom (ext : String) (cur : ℚ × ℚ) (lines : List String) : ℚ × ℚ :=
  match (timingLines ext lines).getLast? with
  | none => cur
  | some l => lineTiming ext (TrimSpace l)

/-- The start and end of the last timing line seen in `lines`; 0 and 0 when no timing line
has been seen. -/
def lastTiming (ext : String) (lines : List String) : ℚ × ℚ :=
  lastTimingFrom ext (0, 0) lines

/-- The track of a sequence of blocks, `seen` being the lines of the file before them: every
block with at least one text line gives one segment, whose text is the join of the block's
text lines and whose start and end are those of the last timing line seen up to the end of
the block. -/
def trackOfBlocks (ext : String) : List String → List (List String) → List Caption
  | _, [] => []
  | seen, b :: bs =>
    (if blockTextLines ext b ≠ [] then
        [⟨(lastTiming ext (seen ++ b)).1, (lastTiming ext (seen ++ b)).2,
          Join (blockTextLines ext b) " "⟩]
      else [])
      ++ trackOfBlocks ext (seen ++ b) bs

/-- The track of a file, block by block: the input is cut at its blank lines. -/
def trackSpec (ext : String) (lines : List String) : List Caption :=
  trackOfBlocks ext [] (lines.splitOnP isBlankLine)

/-- The segments still to come out of the loop: `seen` are the lines read so far, `pending`
is the text buffer, which the first of the remaining blocks continues. -/
def pendingTrack (ext : String) (seen pending : List String) :
    List (List String) → List Caption
  | [] => []
  | b :: bs =>
    (if pending ++ blockTextLines ext b ≠ [] then
        [⟨(lastTiming ext (seen ++ b)).1, (lastTiming ext (seen ++ b)).2,
          Join (pending ++ blockTextLines ext b) " "⟩]
      else [])
      ++ trackOfBlocks ext (seen ++ b) bs

/-- Two segments overlap as half-open intervals `[Start, End)`: some instant lies in both. -/
def overlaps (c d : Caption) : Prop :=
  ∃ x : ℚ, c.Start ≤ x ∧ x < c.End ∧ d.Start ≤ x ∧ x < d.End

/-- The segments of a track together cover the whole target `[tStart, tEnd)`. -/
def coversTarget (captions : List Caption) (tStart tEnd : ℚ) : Prop :=
  ∀ x : ℚ, tStart ≤ x → x < tEnd → ∃ c ∈ captions, c.Start ≤ x ∧ x < c.End

/-! ## Coverage calculator -/

/-- Source `min`: `if a < b { return a }; return b`. -/
def min (a b : ℚ) : ℚ := if a < b then a else b

/-- Source `max`: `if a > b { return a }; return b`. -/
def max (a b : ℚ) : ℚ := if a > b then a else b

/-- One iteration of the `for _, c := range captions` loop of `calcCoverage`, exact
reading. -/
def coverStep (tStart tEnd : ℚ) (covered : ℚ) (c : Caption) : ℚ :=
  let s := max c.Start tStart
  let e := min c.End tEnd
  if e > s then covered + (e - s) else covered

/-- Source `calcCoverage`, exact reading. -/
def calcCoverage (captions : List Caption) (tStart tEnd : ℚ) : ℚ :=
  let total := tEnd - tStart
  if total ≤ 0 then 0
  else
    let covered := captions.foldl (coverStep tStart tEnd) 0
    covered / total

/-- The overlap of one segment with the target, as the specification words it:
`max(0, min(segment.End, tEnd) - max(segment.Start, tStart))`, with the order-theoretic
`min` and `max` of `ℚ`. -/
def overlapSpec (tStart tEnd : ℚ) (c : Caption) : ℚ :=
  Max.max 0 (Min.min c.End tEnd - Max.max c.Start tStart)

/-- Coverage as the specification words it: the per-segment overlaps, summed independently
and divided by the length of the target. -/
def coverageSpec (captions : List Caption) (tStart tEnd : ℚ) : ℚ :=
  (captions.map (overlapSpec tStart tEnd)).sum / (tEnd - tStart)

/-! ## Validation orchestrator -/

/-- Rounding of a non-negative exact value to the nearest integer, ties to even, as
`strconv.FormatFloat` rounds the digits it drops. -/
def roundHalfEven (q : ℚ) : Nat :=
  let f := ⌊q⌋.toNat
  let r := q - (f : ℚ)
  if r < 1 / 2 then f
  else if 1 / 2 < r then f + 1
  else if f % 2 = 0 then f
  else f + 1

/-- The verb `%.2f` of `fmt.Sprintf` on an exact value: sign, integer part, a dot and exactly
two decimals. -/
def formatFixed2 (q : ℚ) : String :=
  let n := roundHalfEven (|q| * 100)
  (if q < 0 then "-" else "") ++ Nat.repr (n / 100) ++ "."
    ++ String.mk [Nat.digitChar (n / 10 % 10), Nat.digitChar (n % 10)]

/-- Coverage check of `main` (lines 62-69), exact reading: the records printed by
`printJSON`. -/
def coverageCheck (captions : List Caption) (tStart tEnd coverage : ℚ) :
    List ValidationError :=
  let covered := calcCoverage captions tStart tEnd
  if covered < coverage / 100 then
    [⟨"caption_coverage",
      "Coverage too low: " ++ formatFixed2 (covered * 100) ++ "% < required "
        ++ formatFixed2 coverage ++ "%", none⟩]
  else []

/-- Source `extractText`. -/
def extractText (captions : List Caption) : List String :=
  captions.map (fun c => c.Text)

/-- Language check of `main` (lines 73-81) on the outcome of `detectLanguage`, an error or the
detected locale: the records printed by `printJSON`. -/
def languageCheck (detected : Except String String) : List ValidationError :=
  match detected with
  | Except.error _ => []
  | Except.ok lang =>
    if lang ≠ "en-US" then
      [⟨"incorrect_language", "Detected language " ++ lang ++ " is not acceptable", none⟩]
    else []

/-- Source `main` after the flags are read and the file is parsed (lines 62-81): the
validation records written to standard output, in order.  The language-detection request is
the parameter `detectLanguage`, applied to the newline-joined caption texts. -/
def main (captions : List Caption) (tStart tEnd coverage : ℚ)
    (detectLanguage : String → Except String String) : List ValidationError :=
  coverageCheck captions tStart tEnd coverage
    ++ languageCheck (detectLanguage (Join (extractText captions) "\n"))

/-! ## The binary64 reading of the coverage calculator -/

/-- Rounding of an exact value to the nearest integer, ties to even. -/
def roundTiesEven (x : ℚ) : Int :=
  let f := ⌊x⌋
  let r := x - (f : ℚ)
  if r < 1 / 2 then f
  else if 1 / 2 < r then f + 1
  else if f % 2 = 0 then f
  else f + 1

/-- IEEE-754 binary64 rounding of an exact value (magnitude below `2^1024`): the nearest
multiple of the unit in the last place `2^e`, ties to even, where `e` puts the significand in
`[2^52, 2^53)` and is at least -1074 (subnormal range). -/
def roundF64 (q : ℚ) : ℚ :=
  if q = 0 then 0
  else
    let e : Int := Max.max (Int.log 2 |q| - 52) (-1074)
    (roundTiesEven (q / 2 ^ e) : ℚ) * 2 ^ e

/-- One iteration of the loop of `calcCoverage` in binary64: `e - s` and `covered += ..` are
each rounded. -/
def coverStepF64 (tStart tEnd : ℚ) (covered : ℚ) (c : Caption) : ℚ :=
  let s := max c.Start tStart
  let e := min c.End tEnd
  if e > s then roundF64 (covered + roundF64 (e - s)) else covered

/-- Source `calcCoverage` in binary64: the subtraction, every accumulation and the final
division are rounded. -/
def calcCoverageF64 (captions : List Caption) (tStart tEnd : ℚ) : ℚ :=
  let total := roundF64 (tEnd - tStart)
  if total ≤ 0 then 0
  else roundF64 (captions.foldl (coverStepF64 tStart tEnd) 0 / total)

/-- Coverage check of `main` (lines 62-69) in binary64: `*coverage / 100` and `covered*100`
are rounded. -/
def coverageCheckF64 (captions : List Caption) (tStart tEnd coverage : ℚ) :
    List ValidationError :=
  let covered := calcCoverageF64 captions tStart tEnd
  if covered < roundF64 (coverage / 100) then
    [⟨"caption_coverage",
      "Coverage too low: " ++ formatFixed2 (roundF64 (covered * 100)) ++ "% < required "
        ++ formatFixed2 coverage ++ "%", none⟩]
  else []

/-- Three millisecond cues `0 - 0.123`, `0.123 - 2.124`, `2.124 - 3`, each bound being the
binary64 value nearest to the decimal: a track whose segments do not overlap and cover the
target `[0, 3]`. -/
def millisecondCues : List Caption :=
  [⟨0, 553942754166571 / 4503599627370496, "a"⟩,
   ⟨553942754166571 / 4503599627370496, 4782822804267467 / 2251799813685248, "b"⟩,
   ⟨4782822804267467 / 2251799813685248, 3, "c"⟩]

/-! ### Lemmas on the coverage loop -/

theorem min_eq_inf (a b : ℚ) : min a b = Min.min a b := by
  unfold min
  split_ifs with h
  · exact (min_eq_left h.le).symm
  · exact (min_eq_right (not_lt.mp h)).symm

theorem max_eq_sup (a b : ℚ) : max a b = Max.max a b := by
  unfold max
  split_ifs with h
  · exact (max_eq_left (le_of_lt h)).symm
  · exact (max_eq_right (not_lt.mp h)).symm

theorem coverStep_eq (tStart tEnd covered : ℚ) (c : Caption) :
    coverStep tStart tEnd covered c = covered + overlapSpec tStart tEnd c := by
  unfold coverStep overlapSpec
  simp only [min_eq_inf, max_eq_sup]
  split_ifs with h
  · rw [max_eq_right (sub_nonneg.mpr (le_of_lt h))]
  · rw [max_eq_left (sub_nonpos.mpr (not_lt.mp h)), add_zero]

theorem foldl_coverStep (tStart tEnd : ℚ) (captions : List Caption) (acc : ℚ) :
    captions.foldl (coverStep tStart tEnd) acc
      = acc + (captions.map (overlapSpec tStart tEnd)).sum := by
  induction captions generalizing acc with
  | nil => simp
  | cons c cs ih =>
    simp only [List.foldl_cons, List.map_cons, List.sum_cons]
    rw [ih, coverStep_eq, add_assoc]

theorem overlapSpec_nonneg (tStart tEnd : ℚ) (c : Caption) :
    0 ≤ overlapSpec tStart tEnd c :=
  le_max_left _ _

theorem sum_overlapSpec_nonneg (tStart tEnd : ℚ) (captions : List Caption) :
    0 ≤ (captions.map (overlapSpec tStart tEnd)).sum := by
  apply List.sum_nonneg
  intro x hx
  obtain ⟨c, -, rfl⟩ := List.mem_map.mp hx
  exact overlapSpec_nonneg tStart tEnd c

theorem calcCoverage_of_pos (captions : List Caption) (tStart tEnd : ℚ) (h : tStart < tEnd) :
    calcCoverage captions tStart tEnd
      = (captions.map (overlapSpec tStart tEnd)).sum / (tEnd - tStart) := by
  unfold calcCoverage
  simp only
  rw [if_neg (not_le.mpr (sub_pos.mpr h)), foldl_coverStep, zero_add]

theorem calcCoverage_of_nonpos (captions : List Caption) (tStart tEnd : ℚ)
    (h : tEnd ≤ tStart) : calcCoverage captions tStart tEnd = 0 := by
  unfold calcCoverage
  simp only
  rw [if_pos (sub_nonpos.mpr h)]

theorem overlapSpec_degenerate (tStart tEnd : ℚ) (c : Caption) (h : c.End ≤ c.Start) :
    overlapSpec tStart tEnd c = 0 := by
  unfold overlapSpec
  apply max_eq_left
  have h1 : Min.min c.End tEnd ≤ c.End := min_le_left _ _
  have h2 : c.Start ≤ Max.max c.Start tStart := le_max_left _ _
  linarith


/-! ## Coverage calculator: the stated properties -/

/-- C1: for every track (overlapping, inverted or out-of-order segments included) and every
target interval with `tEnd <= tStart`, `calcCoverage` returns exactly 0. -/
theorem calcCoverage_empty_target (captions : List Caption) (tStart tEnd : ℚ)
    (h : tEnd ≤ tStart) : calcCoverage captions tStart tEnd = 0 :=
  calcCoverage_of_nonpos captions tStart tEnd h

/-- Instance of C1: an overlapping, inverted, out-of-order track and the inverted
target `[10, 5]`. -/
theorem calcCoverage_empty_target_witness :
    (5 : ℚ) ≤ 10 ∧
      calcCoverage [⟨7, 20, "late"⟩, ⟨0, 10, "early"⟩, ⟨9, 3, "inverted"⟩] 10 5 = 0 :=
  ⟨by norm_num, calcCoverage_empty_target _ 10 5 (by norm_num)⟩

/-- C2: for every track and every target with `tEnd > tStart`, `calcCoverage` is the sum over
all segments, taken independently, of `max(0, min(End, tEnd) - max(Start, tStart))`, divided by
`tEnd - tStart`, with no union-merge: one segment `{0,10}` on target `[0,10]` gives exactly 1,
and segments `{0,10}`, `{5,15}` on target `[0,15]` give `(10 + 10)/15`, which exceeds 1. -/
theorem calcCoverage_eq_coverageSpec :
    (∀ (captions : List Caption) (tStart tEnd : ℚ), tStart < tEnd →
        calcCoverage captions tStart tEnd = coverageSpec captions tStart tEnd)
    ∧ calcCoverage [⟨0, 10, "x"⟩] 0 10 = 1
    ∧ calcCoverage [⟨0, 10, "a"⟩, ⟨5, 15, "b"⟩] 0 15 = (10 + 10) / 15
    ∧ 1 < calcCoverage [⟨0, 10, "a"⟩, ⟨5, 15, "b"⟩] 0 15 := by
  refine ⟨fun captions tStart tEnd h => calcCoverage_of_pos captions tStart tEnd h, ?_, ?_, ?_⟩
  · rw [calcCoverage_of_pos _ _ _ (by norm_num)]
    norm_num [overlapSpec]
  · rw [calcCoverage_of_pos _ _ _ (by norm_num)]
    norm_num [overlapSpec]
  · rw [calcCoverage_of_pos _ _ _ (by norm_num)]
    norm_num [overlapSpec]

/-- Instance of C2: a three-segment track with an overlap and a segment outside the target. -/
theorem calcCoverage_eq_coverageSpec_witness :
    (2 : ℚ) < 12 ∧
      calcCoverage [⟨0, 5, "a"⟩, ⟨4, 8, "b"⟩, ⟨20, 30, "c"⟩] 2 12
        = coverageSpec [⟨0, 5, "a"⟩, ⟨4, 8, "b"⟩, ⟨20, 30, "c"⟩] 2 12 :=
  ⟨by norm_num, calcCoverage_eq_coverageSpec.1 _ 2 12 (by norm_num)⟩

/-- C8: for every track and every target interval `calcCoverage` is `>= 0`, and a segment
with `End <= Start` (inverted or zero-length) contributes zero: adding it anywhere in any
track leaves `calcCoverage` unchanged. -/
theorem calcCoverage_nonneg_and_degenerate :
    (∀ (captions : List Caption) (tStart tEnd : ℚ), 0 ≤ calcCoverage captions tStart tEnd)
    ∧ (∀ (before after : List Caption) (c : Caption) (tStart tEnd : ℚ), c.End ≤ c.Start →
        calcCoverage (before ++ c :: after) tStart tEnd
          = calcCoverage (before ++ after) tStart tEnd) := by
  constructor
  · intro captions tStart tEnd
    rcases le_or_lt tEnd tStart with h | h
    · rw [calcCoverage_of_nonpos captions tStart tEnd h]
    · rw [calcCoverage_of_pos captions tStart tEnd h]
      exact div_nonneg (sum_overlapSpec_nonneg tStart tEnd captions) (sub_pos.mpr h).le
  · intro before after c tStart tEnd hc
    rcases le_or_lt tEnd tStart with h | h
    · rw [calcCoverage_of_nonpos _ tStart tEnd h, calcCoverage_of_nonpos _ tStart tEnd h]
    · rw [calcCoverage_of_pos _ tStart tEnd h, calcCoverage_of_pos _ tStart tEnd h]
      simp only [List.map_append, List.map_cons, List.sum_append, List.sum_cons]
      rw [overlapSpec_degenerate tStart tEnd c hc, zero_add]

/-- Instance of C8: the inverted segment `{9, 3}` inserted in a two-segment track. -/
theorem calcCoverage_nonneg_and_degenerate_witness :
    (3 : ℚ) ≤ 9 ∧
      calcCoverage ([⟨0, 4, "a"⟩] ++ (⟨9, 3, "inv"⟩ : Caption) :: [⟨5, 8, "b"⟩]) 0 10
        = calcCoverage ([⟨0, 4, "a"⟩] ++ [⟨5, 8, "b"⟩]) 0 10 :=
  ⟨by norm_num,
    calcCoverage_nonneg_and_degenerate.2 [⟨0, 4, "a"⟩] [⟨5, 8, "b"⟩] ⟨9, 3, "inv"⟩ 0 10
      (by norm_num)⟩

/-- C9: `calcCoverage` is additive over tracks, in exact arithmetic:
`calcCoverage (a ++ b) = calcCoverage a + calcCoverage b` for every target, a single segment
counting its overlap with the target over the target length; hence time covered by two
segments is counted twice (a track repeated gives twice its coverage: `{0,10}` twice on
`[0,10]` gives 2, while once it gives 1) and the result does not depend on the order of the
segments. -/
theorem calcCoverage_additive :
    (∀ (a b : List Caption) (tStart tEnd : ℚ),
        calcCoverage (a ++ b) tStart tEnd
          = calcCoverage a tStart tEnd + calcCoverage b tStart tEnd)
    ∧ (∀ (a : List Caption) (tStart tEnd : ℚ),
        calcCoverage (a ++ a) tStart tEnd = 2 * calcCoverage a tStart tEnd)
    ∧ (∀ (a b : List Caption) (tStart tEnd : ℚ), a.Perm b →
        calcCoverage a tStart tEnd = calcCoverage b tStart tEnd)
    ∧ (∀ (c : Caption) (tStart tEnd : ℚ), tStart < tEnd →
        calcCoverage [c] tStart tEnd = overlapSpec tStart tEnd c / (tEnd - tStart))
    ∧ calcCoverage [⟨0, 10, "a"⟩] 0 10 = 1
    ∧ calcCoverage ([⟨0, 10, "a"⟩] ++ [⟨0, 10, "a"⟩]) 0 10 = 2
    ∧ calcCoverage ([⟨0, 10, "a"⟩] ++ [⟨5, 15, "b"⟩]) 0 15 = 10 / 15 + 10 / 15
    ∧ calcCoverage ([⟨5, 15, "b"⟩] ++ [⟨0, 10, "a"⟩]) 0 15 = 10 / 15 + 10 / 15 := by
  have hadd : ∀ (a b : List Caption) (tStart tEnd : ℚ),
      calcCoverage (a ++ b) tStart tEnd
        = calcCoverage a tStart tEnd + calcCoverage b tStart tEnd := by
    intro a b tStart tEnd
    rcases le_or_lt tEnd tStart with h | h
    · simp only [calcCoverage_of_nonpos _ tStart tEnd h, add_zero]
    · simp only [calcCoverage_of_pos _ tStart tEnd h, List.map_append, List.sum_append,
        add_div]
  have hone : ∀ (c : Caption) (tStart tEnd : ℚ), tStart < tEnd →
      calcCoverage [c] tStart tEnd = overlapSpec tStart tEnd c / (tEnd - tStart) := by
    intro c tStart tEnd h
    rw [calcCoverage_of_pos _ tStart tEnd h]
    simp
  refine ⟨hadd, ?_, ?_, hone, ?_, ?_, ?_, ?_⟩
  · intro a tStart tEnd
    rw [hadd, two_mul]
  · intro a b tStart tEnd hperm
    rcases le_or_lt tEnd tStart with h | h
    · rw [calcCoverage_of_nonpos _ tStart tEnd h, calcCoverage_of_nonpos _ tStart tEnd h]
    · rw [calcCoverage_of_pos _ tStart tEnd h, calcCoverage_of_pos _ tStart tEnd h,
        (hperm.map (overlapSpec tStart tEnd)).sum_eq]
  · rw [hone _ _ _ (by norm_num)]
    norm_num [overlapSpec]
  · rw [hadd, hone _ _ _ (by norm_num)]
    norm_num [overlapSpec]
  · rw [hadd, hone _ _ _ (by norm_num), hone _ _ _ (by norm_num)]
    norm_num [overlapSpec]
  · rw [hadd, hone _ _ _ (by norm_num), hone _ _ _ (by norm_num)]
    norm_num [overlapSpec]

/-- Instance of C9: two overlapping segments in either order, and one of them alone. -/
theorem calcCoverage_additive_witness :
    (List.Perm [(⟨0, 10, "a"⟩ : Caption), ⟨5, 15, "b"⟩] [⟨5, 15, "b"⟩, ⟨0, 10, "a"⟩]
      ∧ calcCoverage [⟨0, 10, "a"⟩, ⟨5, 15, "b"⟩] 0 15
          = calcCoverage [⟨5, 15, "b"⟩, ⟨0, 10, "a"⟩] 0 15)
    ∧ ((0 : ℚ) < 15
      ∧ calcCoverage [⟨5, 15, "b"⟩] 0 15 = overlapSpec 0 15 ⟨5, 15, "b"⟩ / (15 - 0)) :=
  ⟨⟨List.Perm.swap _ _ _,
      calcCoverage_additive.2.2.1 [⟨0, 10, "a"⟩, ⟨5, 15, "b"⟩] [⟨5, 15, "b"⟩, ⟨0, 10, "a"⟩]
        0 15 (List.Perm.swap _ _ _)⟩,
    ⟨by norm_num, calcCoverage_additive.2.2.2.1 ⟨5, 15, "b"⟩ 0 15 (by norm_num)⟩⟩

/-! ## Timestamp parsers: lemmas -/

theorem digitVal_le_nine (c : Char) (h : isDigit c = true) : digitVal c ≤ 9 := by
  unfold isDigit at h
  unfold digitVal
  simp only [Bool.and_eq_true, decide_eq_true_eq] at h
  omega

theorem parseUintLoop_digits (ds : List Char) (n : Nat) (hd : ∀ c ∈ ds, isDigit c = true)
    (hb : n * 10 ^ ds.length + Nat.ofDigits 10 (ds.reverse.map digitVal) ≤ maxUint64) :
    parseUintLoop ds n
      = some (n * 10 ^ ds.length + Nat.ofDigits 10 (ds.reverse.map digitVal)) := by
  induction ds generalizing n with
  | nil => simp [parseUintLoop]
  | cons c cs ih =>
    have hc : isDigit c = true := hd c (List.mem_cons_self _ _)
    have hcs : ∀ x ∈ cs, isDigit x = true := fun x hx => hd x (List.mem_cons_of_mem _ hx)
    have hval : n * 10 ^ (c :: cs).length + Nat.ofDigits 10 ((c :: cs).reverse.map digitVal)
        = (n * 10 + digitVal c) * 10 ^ cs.length
          + Nat.ofDigits 10 (cs.reverse.map digitVal) := by
      simp only [List.reverse_cons, List.map_append, List.map_cons, List.map_nil,
        Nat.ofDigits_append, Nat.ofDigits_singleton, List.length_map, List.length_reverse,
        List.length_cons]
      ring
    rw [hval] at hb ⊢
    have hpow : 1 ≤ 10 ^ cs.length := Nat.one_le_pow _ _ (by norm_num)
    have hle : n * 10 + digitVal c ≤ maxUint64 := by
      calc n * 10 + digitVal c ≤ (n * 10 + digitVal c) * 10 ^ cs.length :=
            Nat.le_mul_of_pos_right _ hpow
        _ ≤ _ := Nat.le_add_right _ _
        _ ≤ maxUint64 := hb
    have hn : ¬ n ≥ maxUint64 / 10 + 1 := by
      have : n ≤ maxUint64 / 10 := by
        rw [Nat.le_div_iff_mul_le (by norm_num)]
        omega
      omega
    rw [parseUintLoop]
    simp only [hc, Bool.not_true, Bool.false_eq_true, if_false, hn, not_lt.mpr hle]
    exact ih (n * 10 + digitVal c) hcs hb

theorem atoiChars_digits (ds : List Char) (hne : ds ≠ []) (hd : ∀ c ∈ ds, isDigit c = true)
    (hb : ((Nat.ofDigits 10 (ds.reverse.map digitVal) : Nat) : Int) ≤ maxInt) :
    atoiChars ds = ((Nat.ofDigits 10 (ds.reverse.map digitVal) : Nat) : Int) := by
  obtain ⟨c, cs, rfl⟩ := List.exists_cons_of_ne_nil hne
  have hc : isDigit c = true := hd c (List.mem_cons_self _ _)
  have hplus : (c == '+') = false := by
    rw [beq_eq_false_iff_ne]
    rintro rfl
    exact absurd hc (by decide)
  have hminus : (c == '-') = false := by
    rw [beq_eq_false_iff_ne]
    rintro rfl
    exact absurd hc (by decide)
  have hnat : Nat.ofDigits 10 ((c :: cs).reverse.map digitVal) ≤ 2 ^ 63 - 1 := by
    unfold maxInt at hb
    omega
  have hloop := parseUintLoop_digits (c :: cs) 0 hd (by
    unfold maxUint64
    omega)
  rw [Nat.zero_mul, Nat.zero_add] at hloop
  unfold atoiChars
  simp only [hplus, hminus, Bool.or_self, Bool.false_eq_true, if_false, List.isEmpty_cons,
    hloop, Bool.not_false, Bool.true_and, Bool.false_and, decide_eq_true_eq]
  rw [if_neg (by omega)]

theorem decimalValue_twoDigits_lt (s : String) (h : isTwoDigits s = true) :
    decimalValue s < 100 := by
  unfold isTwoDigits at h
  simp only [Bool.and_eq_true, beq_iff_eq, List.all_eq_true] at h
  unfold decimalValue
  have := Nat.ofDigits_lt_base_pow_length (b := 10) (l := s.data.reverse.map digitVal)
    (by norm_num) (by
      intro x hx
      obtain ⟨c, hc, rfl⟩ := List.mem_map.mp hx
      have := digitVal_le_nine c (h.2 c (List.mem_reverse.mp hc))
      omega)
  simpa [h.1] using this

theorem Atoi_twoDigits (s : String) (h : isTwoDigits s = true) :
    Atoi s = (decimalValue s : Int) := by
  have hlt := decimalValue_twoDigits_lt s h
  unfold isTwoDigits at h
  simp only [Bool.and_eq_true, beq_iff_eq, List.all_eq_true] at h
  unfold Atoi
  apply atoiChars_digits _ _ h.2
  · unfold decimalValue at hlt
    unfold maxInt
    omega
  · intro hnil
    rw [hnil] at h
    simp at h

theorem Atoi_digitString (s : String) (h : isDigitString s = true)
    (hb : (decimalValue s : Int) ≤ maxInt) : Atoi s = (decimalValue s : Int) := by
  unfold isDigitString at h
  simp only [Bool.and_eq_true, Bool.not_eq_true', List.isEmpty_eq_false, List.all_eq_true]
    at h
  exact atoiChars_digits _ h.1 h.2 hb

theorem wrapInt_of_small (x : Int) (h0 : 0 ≤ x) (h1 : x < 2 ^ 63) : wrapInt x = x := by
  unfold wrapInt
  omega

/-- C10: for all decimal digit strings `h`, `m`, `s` (two digits each) and `ms` (one or more
digits, value within the `int` range), as the SRT timing pattern captures them, `hmsToSeconds`
returns `h*3600 + m*60 + s + ms/1000`; `ms` counts thousandths whatever its digit count: the
single-digit fragment `"5"` adds 0.005, not 0.5. -/
theorem hmsToSeconds_digits :
    (∀ h m s ms : String, isTwoDigits h = true → isTwoDigits m = true →
        isTwoDigits s = true → isDigitString ms = true → (decimalValue ms : Int) ≤ maxInt →
        hmsToSeconds h m s ms
          = (decimalValue h : ℚ) * 3600 + (decimalValue m : ℚ) * 60 + (decimalValue s : ℚ)
            + (decimalValue ms : ℚ) / 1000)
    ∧ hmsToSeconds "00" "00" "00" "5" = 5 / 1000
    ∧ hmsToSeconds "00" "00" "00" "5" ≠ 5 / 10 := by
  have key : ∀ h m s ms : String, isTwoDigits h = true → isTwoDigits m = true →
      isTwoDigits s = true → isDigitString ms = true → (decimalValue ms : Int) ≤ maxInt →
      hmsToSeconds h m s ms
        = (decimalValue h : ℚ) * 3600 + (decimalValue m : ℚ) * 60 + (decimalValue s : ℚ)
          + (decimalValue ms : ℚ) / 1000 := by
    intro h m s ms hh hm hs hms hb
    have h1 := decimalValue_twoDigits_lt h hh
    have h2 := decimalValue_twoDigits_lt m hm
    have h3 := decimalValue_twoDigits_lt s hs
    unfold hmsToSeconds
    simp only [Atoi_twoDigits h hh, Atoi_twoDigits m hm, Atoi_twoDigits s hs,
      Atoi_digitString ms hms hb]
    rw [wrapInt_of_small _ (by positivity) (by omega)]
    push_cast
    ring
  have h5 : hmsToSeconds "00" "00" "00" "5" = 5 / 1000 := by
    rw [key "00" "00" "00" "5" (by decide) (by decide) (by decide) (by decide) (by decide)]
    have e0 : decimalValue "00" = 0 := by decide
    have e5 : decimalValue "5" = 5 := by decide
    rw [e0, e5]
    norm_num
  refine ⟨key, h5, ?_⟩
  rw [h5]
  norm_num

/-- Instance of C10: the captures of `01:02:03,45`. -/
theorem hmsToSeconds_digits_witness :
    (isTwoDigits "01" = true ∧ isTwoDigits "02" = true ∧ isTwoDigits "03" = true
      ∧ isDigitString "45" = true ∧ (decimalValue "45" : Int) ≤ maxInt)
    ∧ hmsToSeconds "01" "02" "03" "45"
        = (decimalValue "01" : ℚ) * 3600 + (decimalValue "02" : ℚ) * 60
          + (decimalValue "03" : ℚ) + (decimalValue "45" : ℚ) / 1000 :=
  ⟨⟨by decide, by decide, by decide, by decide, by decide⟩,
    hmsToSeconds_digits.1 "01" "02" "03" "45" (by decide) (by decide) (by decide) (by decide)
      (by decide)⟩

/-! ## Caption track parser: the loop body -/

theorem step_blank (ext : String) (st : ParseState) (raw : String)
    (h : TrimSpace raw = "") : step ext st raw = some (flush st) := by
  unfold step
  simp only [h, if_true]

theorem step_text (ext : String) (st : ParseState) (raw : String)
    (hne : TrimSpace raw ≠ "") (ht : isTiming ext (TrimSpace raw) = false) :
    step ext st raw = some { st with text := st.text ++ [TrimSpace raw] } := by
  unfold isTiming at ht
  simp only [Bool.or_eq_false_iff, Bool.and_eq_false_iff, decide_eq_false_iff_not] at ht
  unfold step
  simp only [hne, if_false]
  rw [if_neg (by
    rintro ⟨h1, h2⟩
    rcases ht.1 with h | h
    · exact h h1
    · rw [h] at h2
      exact Bool.false_ne_true h2)]
  rw [if_neg (by
    rintro ⟨h1, h2⟩
    rcases ht.2 with h | h
    · exact h h1
    · rw [h] at h2
      exact Bool.false_ne_true h2)]

theorem step_timing (ext : String) (st st1 : ParseState) (raw : String)
    (hne : TrimSpace raw ≠ "") (ht : isTiming ext (TrimSpace raw) = true)
    (hs : step ext st raw = some st1) :
    st1.captions = st.captions ∧ st1.text = st.text := by
  unfold isTiming at ht
  simp only [Bool.or_eq_true, Bool.and_eq_true, decide_eq_true_eq] at ht
  unfold step at hs
  simp only [hne, if_false] at hs
  by_cases hsrt : ext = ".srt" ∧ MatchString (TrimSpace raw) = true
  · rw [if_pos hsrt] at hs
    split at hs
    · simp only [Option.some.injEq] at hs
      subst hs
      exact ⟨rfl, rfl⟩
    · exact absurd hs (by simp)
  · rw [if_neg hsrt] at hs
    have hvtt : ext = ".vtt" ∧ Contains (TrimSpace raw) "-->" = true := by
      rcases ht with h | h
      · exact absurd h hsrt
      · exact h
    rw [if_pos hvtt] at hs
    split at hs
    · simp only [Option.some.injEq] at hs
      subst hs
      exact ⟨rfl, rfl⟩
    · exact absurd hs (by simp)

theorem parseLoop_append (ext : String) (st : ParseState) (xs ys : List String) :
    parseLoop ext st (xs ++ ys) = (parseLoop ext st xs).bind (fun s => parseLoop ext s ys) := by
  induction xs generalizing st with
  | nil => simp [parseLoop]
  | cons x xs ih =>
    simp only [List.cons_append, parseLoop]
    cases step ext st x with
    | none => simp
    | some s => simp [ih]

/-! ## The SRT pattern: shape of the captures -/

theorem takeTwoDigits_spec (s g r : List Char) (h : takeTwoDigits s = some (g, r)) :
    isTwoDigits ⟨g⟩ = true := by
  unfold takeTwoDigits at h
  split at h
  · split_ifs at h with hd
    simp only [Option.some.injEq, Prod.mk.injEq] at h
    obtain ⟨rfl, -⟩ := h
    simp only [Bool.and_eq_true] at hd
    simp [isTwoDigits, hd.1, hd.2]
  · exact absurd h (by simp)

theorem takeDigits_spec (s g r : List Char) (h : takeDigits s = some (g, r)) :
    isDigitString ⟨g⟩ = true := by
  unfold takeDigits at h
  split_ifs at h with he
  simp only [Option.some.injEq, Prod.mk.injEq] at h
  obtain ⟨rfl, -⟩ := h
  simp only [isDigitString, Bool.and_eq_true, Bool.not_eq_true', List.all_eq_true]
  refine ⟨by simpa using he, ?_⟩
  intro c hc
  exact (List.mem_takeWhile_imp hc)

theorem matchStamp_spec (s r : List Char) (g : List (List Char))
    (h : matchStamp s = some (g, r)) :
    ∃ a b c d, g = [a, b, c, d] ∧ isTwoDigits ⟨a⟩ = true ∧ isTwoDigits ⟨b⟩ = true
      ∧ isTwoDigits ⟨c⟩ = true ∧ isDigitString ⟨d⟩ = true := by
  unfold matchStamp at h
  simp only [bind, Option.bind_eq_some, pure, Prod.exists] at h
  obtain ⟨a, r1, h1, r2, -, b, r3, h3, r4, -, c, r5, h5, r6, -, d, r7, h7, hg⟩ := h
  simp only [Option.some.injEq, Prod.mk.injEq] at hg
  exact ⟨a, b, c, d, hg.1.symm, takeTwoDigits_spec _ _ _ h1, takeTwoDigits_spec _ _ _ h3,
    takeTwoDigits_spec _ _ _ h5, takeDigits_spec _ _ _ h7⟩

theorem matchSrtAt_spec (s : List Char) (g : List (List Char)) (h : matchSrtAt s = some g) :
    ∃ g1 g2 g3 g4 g5 g6 g7 g8, g = [g1, g2, g3, g4, g5, g6, g7, g8]
      ∧ isTwoDigits ⟨g1⟩ = true ∧ isTwoDigits ⟨g2⟩ = true ∧ isTwoDigits ⟨g3⟩ = true
      ∧ isDigitString ⟨g4⟩ = true ∧ isTwoDigits ⟨g5⟩ = true ∧ isTwoDigits ⟨g6⟩ = true
      ∧ isTwoDigits ⟨g7⟩ = true ∧ isDigitString ⟨g8⟩ = true := by
  unfold matchSrtAt at h
  simp only [bind, Option.bind_eq_some, pure, Prod.exists] at h
  obtain ⟨x, r1, hx, r2, -, y, r3, hy, hg⟩ := h
  obtain ⟨a, b, c, d, rfl, ha, hb, hc, hd⟩ := matchStamp_spec _ _ _ hx
  obtain ⟨a2, b2, c2, d2, rfl, ha2, hb2, hc2, hd2⟩ := matchStamp_spec _ _ _ hy
  simp only [Option.some.injEq] at hg
  exact ⟨a, b, c, d, a2, b2, c2, d2, hg.symm, ha, hb, hc, hd, ha2, hb2, hc2, hd2⟩

theorem findSrt_spec (s : List Char) (g : List (List Char)) (h : findSrt s = some g) :
    ∃ g1 g2 g3 g4 g5 g6 g7 g8, g = [g1, g2, g3, g4, g5, g6, g7, g8]
      ∧ isTwoDigits ⟨g1⟩ = true ∧ isTwoDigits ⟨g2⟩ = true ∧ isTwoDigits ⟨g3⟩ = true
      ∧ isDigitString ⟨g4⟩ = true ∧ isTwoDigits ⟨g5⟩ = true ∧ isTwoDigits ⟨g6⟩ = true
      ∧ isTwoDigits ⟨g7⟩ = true ∧ isDigitString ⟨g8⟩ = true := by
  induction s with
  | nil => exact absurd h (by simp [findSrt])
  | cons c cs ih =>
    unfold findSrt at h
    split at h
    · next g0 hm =>
      simp only [Option.some.injEq] at h
      subst h
      exact matchSrtAt_spec _ _ hm
    · exact ih h

/-- The captures of the SRT pattern are eight digit strings: `\d{2}` three times and `\d+`,
for each of the two timestamps. -/
theorem FindStringSubmatch_spec (line : String) (m : List String)
    (h : FindStringSubmatch line = some m) :
    ∃ m1 m2 m3 m4 m5 m6 m7 m8, m = [m1, m2, m3, m4, m5, m6, m7, m8]
      ∧ isTwoDigits m1 = true ∧ isTwoDigits m2 = true ∧ isTwoDigits m3 = true
      ∧ isDigitString m4 = true ∧ isTwoDigits m5 = true ∧ isTwoDigits m6 = true
      ∧ isTwoDigits m7 = true ∧ isDigitString m8 = true := by
  unfold FindStringSubmatch at h
  simp only [Option.map_eq_some'] at h
  obtain ⟨g, hg, rfl⟩ := h
  obtain ⟨g1, g2, g3, g4, g5, g6, g7, g8, rfl, h1, h2, h3, h4, h5, h6, h7, h8⟩ :=
    findSrt_spec _ _ hg
  exact ⟨⟨g1⟩, ⟨g2⟩, ⟨g3⟩, ⟨g4⟩, ⟨g5⟩, ⟨g6⟩, ⟨g7⟩, ⟨g8⟩, rfl, h1, h2, h3, h4, h5, h6, h7, h8⟩

/-- In SRT mode the loop body never panics. -/
theorem step_srt_isSome (st : ParseState) (raw : String) :
    ∃ st1, step ".srt" st raw = some st1 := by
  unfold step
  simp only
  split_ifs with h1 h2 h3
  · exact ⟨_, rfl⟩
  · have hm := h2.2
    unfold MatchString at hm
    obtain ⟨m, hm1⟩ := Option.isSome_iff_exists.mp hm
    obtain ⟨m1, m2, m3, m4, m5, m6, m7, m8, rfl, -⟩ := FindStringSubmatch_spec _ _ hm1
    rw [hm1]
    exact ⟨_, rfl⟩
  · exact absurd h3.1 (by decide)
  · exact ⟨_, rfl⟩

/-- In SRT mode the line loop runs to the end of every input. -/
theorem parseLoop_srt_isSome (lines : List String) (st : ParseState) :
    ∃ st1, parseLoop ".srt" st lines = some st1 := by
  induction lines generalizing st with
  | nil => exact ⟨st, rfl⟩
  | cons l ls ih =>
    obtain ⟨s1, hs1⟩ := step_srt_isSome st l
    obtain ⟨s2, hs2⟩ := ih s1
    exact ⟨s2, by simp only [parseLoop, hs1, hs2]⟩

/-! ## Caption track parser: texts of the segments -/

theorem flush_text (st : ParseState) : (flush st).text = [] := by
  unfold flush
  split_ifs with h
  · rfl
  · exact not_not.mp h

theorem flush_captions_texts (st : ParseState) :
    (flush st).captions.map Caption.Text
      = st.captions.map Caption.Text ++ pendingTexts st.text [[]] := by
  unfold flush pendingTexts
  split_ifs with h
  · have : st.text.isEmpty = false := by simpa using h
    simp [this]
  · have : st.text = [] := not_not.mp h
    simp [this]

theorem pendingTexts_cons_nil (pending : List String) (blocks : List (List String)) :
    pendingTexts pending ([] :: blocks) = pendingTexts pending [[]] ++ pendingTexts [] blocks := by
  unfold pendingTexts
  cases blocks with
  | nil => by_cases h : pending.isEmpty <;> simp [h]
  | cons b bs => by_cases h : pending.isEmpty <;> simp [h]

theorem parseLoop_texts (ext : String) (lines : List String) :
    ∀ st st1 : ParseState, parseLoop ext st lines = some st1 →
      (flush st1).captions.map Caption.Text
        = st.captions.map Caption.Text
          ++ pendingTexts st.text ((lines.splitOnP isBlankLine).map (blockTextLines ext)) := by
  induction lines with
  | nil =>
    intro st st1 h
    simp only [parseLoop, Option.some.injEq] at h
    subst h
    simpa [List.splitOnP_nil, blockTextLines] using flush_captions_texts st
  | cons l ls ih =>
    intro st st1 h
    rw [List.splitOnP_cons]
    simp only [parseLoop] at h
    by_cases hb : TrimSpace l = ""
    · rw [step_blank ext st l hb] at h
      simp only at h
      have hbl : isBlankLine l = true := by simp [isBlankLine, hb]
      rw [if_pos hbl, ih _ _ h, flush_text, flush_captions_texts, List.append_assoc]
      simp only [List.map_cons]
      have : blockTextLines ext [] = [] := rfl
      rw [this, pendingTexts_cons_nil st.text
        (List.map (blockTextLines ext) (List.splitOnP isBlankLine ls))]
    · have hbl : ¬ isBlankLine l = true := by simp [isBlankLine, hb]
      rw [if_neg hbl]
      obtain ⟨b, bs, hsplit⟩ := List.exists_cons_of_ne_nil (List.splitOnP_ne_nil isBlankLine ls)
      rw [hsplit] at ih ⊢
      simp only [List.modifyHead_cons, List.map_cons] at ih ⊢
      cases ht : isTiming ext (TrimSpace l) with
      | true =>
        cases hs : step ext st l with
        | none => rw [hs] at h; exact absurd h (by simp)
        | some s1 =>
          rw [hs] at h
          obtain ⟨hc, htx⟩ := step_timing ext st s1 l hb ht hs
          rw [ih _ _ h, hc, htx]
          have : blockTextLines ext (l :: b) = blockTextLines ext b := by
            simp [blockTextLines, ht]
          rw [this]
      | false =>
        rw [step_text ext st l hb ht] at h
        rw [ih _ _ h]
        have : blockTextLines ext (l :: b) = TrimSpace l :: blockTextLines ext b := by
          simp [blockTextLines, ht]
        rw [this]
        simp [pendingTexts]

/-! ## VTT timing lines: the separator -/

theorem splitGo_ne_nil (sep s : List Char) (skip : Nat) (cur : List Char) :
    splitGo sep s skip cur ≠ [] := by
  induction s generalizing skip cur with
  | nil => simp [splitGo]
  | cons c cs ih =>
    cases skip with
    | zero =>
      rw [splitGo]
      split_ifs
      · simp
      · exact ih _ _
    | succ k =>
      rw [splitGo]
      exact ih _ _

theorem splitGo_length_of_contains (sep s cur : List Char) (hsep : sep ≠ [])
    (h : containsChars sep s = true) : 2 ≤ (splitGo sep s 0 cur).length := by
  induction s generalizing cur with
  | nil =>
    rw [containsChars] at h
    exact absurd (List.isEmpty_iff.mp h) hsep
  | cons c cs ih =>
    rw [splitGo]
    split_ifs with hp
    · have := List.length_pos.mpr (splitGo_ne_nil sep cs (sep.length - 1) [])
      simp only [List.length_cons]
      omega
    · rw [containsChars, Bool.or_eq_true] at h
      rcases h with h | h
      · exact absurd h hp
      · exact ih _ h

theorem containsChars_of_isPrefixOf (sub s : List Char) (h : sub.isPrefixOf s = true) :
    containsChars sub s = true := by
  cases s with
  | nil =>
    cases sub with
    | nil => rfl
    | cons a as => simp [List.isPrefixOf] at h
  | cons c cs => simp [containsChars, h]

theorem contains_arrow_of_padded (s : List Char)
    (h : containsChars [' ', '-', '-', '>', ' '] s = true) :
    containsChars ['-', '-', '>'] s = true := by
  induction s with
  | nil => simp [containsChars] at h
  | cons c cs ih =>
    rw [containsChars, Bool.or_eq_true] at h ⊢
    rcases h with h | h
    · right
      apply containsChars_of_isPrefixOf
      rcases cs with _ | ⟨c1, _ | ⟨c2, _ | ⟨c3, _ | ⟨c4, rest⟩⟩⟩⟩ <;>
        simp only [List.isPrefixOf, Bool.and_eq_true, beq_iff_eq, Bool.and_false,
          Bool.false_eq_true, and_false] at h
      simp only [List.isPrefixOf, Bool.and_eq_true, beq_iff_eq, Bool.and_true]
      exact ⟨h.2.1, h.2.2.1, h.2.2.2.1⟩
    · exact Or.inr (ih h)

/-- A trimmed line with the space-padded arrow is a VTT timing line whose split has at least
two parts. -/
theorem vtt_padded_line (line : String) (h : Contains line " --> " = true) :
    line ≠ "" ∧ Contains line "-->" = true
      ∧ ∃ p0 p1 tl, Split line " --> " = p0 :: p1 :: tl := by
  unfold Contains at h
  have hdata : (" --> " : String).data = [' ', '-', '-', '>', ' '] := rfl
  rw [hdata] at h
  refine ⟨?_, ?_, ?_⟩
  · rintro rfl
    exact absurd h (by decide)
  · exact contains_arrow_of_padded _ h
  · have hlen := splitGo_length_of_contains _ line.data [] (by simp) h
    unfold Split
    rw [hdata]
    match hsp : splitGo [' ', '-', '-', '>', ' '] line.data 0 [], hlen with
    | a :: b :: tl, _ => exact ⟨⟨a⟩, ⟨b⟩, tl.map String.mk, rfl⟩

theorem step_vtt_padded (st : ParseState) (raw p0 p1 : String) (tl : List String)
    (h : Contains (TrimSpace raw) " --> " = true)
    (hs : Split (TrimSpace raw) " --> " = p0 :: p1 :: tl) :
    step ".vtt" st raw
      = some { st with start := (parseVTTTime p0).1, end_ := (parseVTTTime p1).1 } := by
  obtain ⟨hne, harrow, -⟩ := vtt_padded_line _ h
  unfold step
  simp only [hne, if_false]
  rw [if_neg (by
    rintro ⟨h1, -⟩
    exact absurd h1 (by decide))]
  rw [if_pos ⟨trivial, harrow⟩, hs]

theorem parseVTTTime_malformed (p : String) (h : (Split p ":").length ≠ 3) :
    parseVTTTime p = (0, some ("invalid VTT time: " ++ p)) := by
  unfold parseVTTTime
  split
  · next p0 p1 p2 heq =>
    rw [heq] at h
    exact absurd rfl h
  · rfl

theorem Join_singleton (x : String) : Join [x] " " = x := rfl

/-! ## Segments always carry text -/

theorem intercalate_go_ne_empty (sep : String) (l : List String) (acc : String)
    (h : acc ≠ "") : String.intercalate.go acc sep l ≠ "" := by
  induction l generalizing acc with
  | nil => simpa [String.intercalate.go] using h
  | cons a as ih =>
    rw [String.intercalate.go]
    apply ih
    intro hcon
    apply h
    have hd := congrArg String.data hcon
    simp only [String.data_append, List.append_eq_nil] at hd
    exact String.ext hd.1.1

theorem Join_ne_empty (l : List String) (sep : String) (hne : l ≠ [])
    (h : ∀ x ∈ l, x ≠ "") : Join l sep ≠ "" := by
  obtain ⟨a, as, rfl⟩ := List.exists_cons_of_ne_nil hne
  unfold Join
  rw [String.intercalate]
  exact intercalate_go_ne_empty sep as a (h a (List.mem_cons_self _ _))

theorem flush_TextInv (st : ParseState) (h : TextInv st) : TextInv (flush st) := by
  unfold flush
  split_ifs with hne
  · refine ⟨?_, by simp⟩
    intro c hc
    simp only [List.mem_append, List.mem_singleton] at hc
    rcases hc with hc | rfl
    · exact h.1 c hc
    · exact Join_ne_empty _ _ hne h.2
  · exact h

theorem step_TextInv (ext : String) (st st1 : ParseState) (raw : String)
    (h : TextInv st) (hs : step ext st raw = some st1) : TextInv st1 := by
  by_cases hb : TrimSpace raw = ""
  · rw [step_blank ext st raw hb] at hs
    simp only [Option.some.injEq] at hs
    subst hs
    exact flush_TextInv st h
  · cases ht : isTiming ext (TrimSpace raw) with
    | true =>
      obtain ⟨hc, htx⟩ := step_timing ext st st1 raw hb ht hs
      exact ⟨by rw [hc]; exact h.1, by rw [htx]; exact h.2⟩
    | false =>
      rw [step_text ext st raw hb ht] at hs
      simp only [Option.some.injEq] at hs
      subst hs
      refine ⟨h.1, ?_⟩
      intro l hl
      simp only [List.mem_append, List.mem_singleton] at hl
      rcases hl with hl | rfl
      · exact h.2 l hl
      · exact hb

theorem parseLoop_TextInv (ext : String) (lines : List String) :
    ∀ st st1 : ParseState, TextInv st → parseLoop ext st lines = some st1 → TextInv st1 := by
  induction lines with
  | nil =>
    intro st st1 h hs
    simp only [parseLoop, Option.some.injEq] at hs
    subst hs
    exact h
  | cons l ls ih =>
    intro st st1 h hs
    simp only [parseLoop] at hs
    cases hstep : step ext st l with
    | none => rw [hstep] at hs; exact absurd hs (by simp)
    | some s1 =>
      rw [hstep] at hs
      exact ih s1 st1 (step_TextInv ext st s1 l h hstep) hs

/-! ## Caption track parser: the stated properties -/

/-- C3, evaluated at the failing input: in VTT mode a line that contains `-->` without the
space-padded separator makes the loop panic (`parts[1]` is out of range), so no track is
returned. -/
theorem parseCaptions_vtt_unpadded_arrow_panics :
    parseCaptions ["WEBVTT", "", "00:00:01.000-->00:00:02.000", "Hello"] ".vtt" = none := by
  with_unfolding_all decide

/-- C4 as stated fails: the two-segment SRT input does not parse to the texts `"Hello"` and
`"World"`. -/
theorem srt_index_lines_not_dropped :
    parseCaptions ["1", "00:00:01,000 --> 00:00:02,000", "Hello", "", "2",
      "00:00:03,000 --> 00:00:04,500", "World"] ".srt"
      ≠ some [⟨1, 2, "Hello"⟩, ⟨3, 9 / 2, "World"⟩] := by
  with_unfolding_all decide

/-- C4, amended: the SRT input `1`, `00:00:01,000 --> 00:00:02,000`, `Hello`, blank, `2`,
`00:00:03,000 --> 00:00:04,500`, `World` yields exactly two segments, in file order, with
starts 1.0 and 3.0, ends 2.0 and 4.5, and texts `"1 Hello"` and `"2 World"`: each index line
is absorbed into the text of its block. -/
theorem parseCaptions_srt_roundtrip :
    parseCaptions ["1", "00:00:01,000 --> 00:00:02,000", "Hello", "", "2",
      "00:00:03,000 --> 00:00:04,500", "World"] ".srt"
      = some [⟨1, 2, "1 Hello"⟩, ⟨3, 9 / 2, "2 World"⟩] := by
  with_unfolding_all decide

/-- C5 as stated fails: on the SRT block `intro`, timing line, `Hello` the segment text is
`"intro Hello"`, while the lines after the timing marker alone give `"Hello"`. -/
theorem segment_text_includes_lines_before_marker :
    (parseCaptions ["intro", "00:00:01,000 --> 00:00:02,000", "Hello"] ".srt").map
        (List.map Caption.Text) = some ["intro Hello"]
    ∧ textsAfterMarker ".srt" ["intro", "00:00:01,000 --> 00:00:02,000", "Hello"] = ["Hello"]
    ∧ (parseCaptions ["intro", "00:00:01,000 --> 00:00:02,000", "Hello"] ".srt").map
        (List.map Caption.Text)
      ≠ some (textsAfterMarker ".srt" ["intro", "00:00:01,000 --> 00:00:02,000", "Hello"]) := by
  refine ⟨?_, ?_, ?_⟩ <;> with_unfolding_all decide

/-- C5, amended: for every input and format, the texts of the segments returned by
`parseCaptions` are, in file order, the single-space joins of the whitespace-trimmed non-blank,
non-timing lines of the blocks of the input (maximal runs of lines between blank lines or the
ends of the input) that have at least one such line; lines before a timing marker of the block
are part of the text.  In SRT mode a track is returned for every input. -/
theorem parseCaptions_texts :
    (∀ (lines : List String) (ext : String) (caps : List Caption),
        parseCaptions lines ext = some caps → caps.map Caption.Text = blockTexts ext lines)
    ∧ (∀ lines : List String, ∃ caps, parseCaptions lines ".srt" = some caps
        ∧ caps.map Caption.Text = blockTexts ".srt" lines) := by
  have key : ∀ (lines : List String) (ext : String) (caps : List Caption),
      parseCaptions lines ext = some caps → caps.map Caption.Text = blockTexts ext lines := by
    intro lines ext caps h
    unfold parseCaptions at h
    simp only [Option.map_eq_some'] at h
    obtain ⟨st1, hloop, rfl⟩ := h
    rw [parseLoop_texts ext lines _ _ hloop]
    simp only [ParseState.init, List.map_nil, List.nil_append, pendingTexts, blockTexts]
    congr 2
    exact congrFun List.modifyHead_id _
  refine ⟨key, fun lines => ?_⟩
  obtain ⟨st1, h1⟩ := parseLoop_srt_isSome lines ParseState.init
  have hp : parseCaptions lines ".srt" = some (flush st1).captions := by
    simp only [parseCaptions, h1, Option.map_some']
  exact ⟨_, hp, key _ _ _ hp⟩

/-- Instance of C5: a VTT file with a header block, a cue with a label line before its timing
line, and a two-line cue. -/
theorem parseCaptions_texts_witness :
    parseCaptions ["WEBVTT", "", "cue-1", "00:00:01.000 --> 00:00:02.000", "  Hello ", "",
        "00:00:03.000 --> 00:00:04.000", "big", "world"] ".vtt"
      = some [⟨0, 0, "WEBVTT"⟩, ⟨1, 2, "cue-1 Hello"⟩, ⟨3, 4, "big world"⟩]
    ∧ List.map Caption.Text [⟨0, 0, "WEBVTT"⟩, ⟨1, 2, "cue-1 Hello"⟩, ⟨3, 4, "big world"⟩]
      = blockTexts ".vtt" ["WEBVTT", "", "cue-1", "00:00:01.000 --> 00:00:02.000", "  Hello ",
          "", "00:00:03.000 --> 00:00:04.000", "big", "world"] :=
  ⟨by with_unfolding_all decide,
    parseCaptions_texts.1 _ ".vtt" _ (by with_unfolding_all decide)⟩

/-- C6 as stated fails: in the VTT line `00:00:01.000 --> 00:02` only the right side is
malformed (two colon-separated parts), and the segment closed under it has start 1, not 0. -/
theorem vtt_one_bad_side_keeps_other :
    Contains (TrimSpace "00:00:01.000 --> 00:02") " --> " = true
    ∧ (Split "00:02" ":").length ≠ 3
    ∧ parseCaptions ["00:00:01.000 --> 00:02", "Hi"] ".vtt" = some [⟨1, 0, "Hi"⟩]
    ∧ parseCaptions ["00:00:01.000 --> 00:02", "Hi"] ".vtt" ≠ some [⟨0, 0, "Hi"⟩] := by
  refine ⟨?_, ?_, ?_, ?_⟩ <;> with_unfolding_all decide

/-- C6, amended: in VTT mode, for every timing line containing the padded arrow, with `p0` and
`p1` the first two parts of its split: `parseVTTTime` returns 0 together with a format error
for each side that does not split on `:` into exactly three parts; the loop goes on with
start the value of `p0` and end the value of `p1`, so a malformed side is 0 and the other side
keeps its parsed value; the lines after it are still parsed, and a text line closed by a blank
line under that timing line gives a segment with exactly these start and end. -/
theorem vtt_malformed_side_zero (st : ParseState) (raw : String) (rest : List String)
    (h : Contains (TrimSpace raw) " --> " = true) :
    ∃ p0 p1 tl, Split (TrimSpace raw) " --> " = p0 :: p1 :: tl
      ∧ ((Split p0 ":").length ≠ 3 →
          parseVTTTime p0 = (0, some ("invalid VTT time: " ++ p0)))
      ∧ ((Split p1 ":").length ≠ 3 →
          parseVTTTime p1 = (0, some ("invalid VTT time: " ++ p1)))
      ∧ parseLoop ".vtt" st (raw :: rest)
          = parseLoop ".vtt"
              { st with start := (parseVTTTime p0).1, end_ := (parseVTTTime p1).1 } rest
      ∧ (∀ t : String, st.text = [] → TrimSpace t ≠ "" →
          isTiming ".vtt" (TrimSpace t) = false →
          parseLoop ".vtt" st (raw :: t :: "" :: rest)
            = parseLoop ".vtt"
                ⟨st.captions ++ [⟨(parseVTTTime p0).1, (parseVTTTime p1).1, TrimSpace t⟩], [],
                  (parseVTTTime p0).1, (parseVTTTime p1).1⟩ rest) := by
  obtain ⟨-, -, p0, p1, tl, hs⟩ := vtt_padded_line _ h
  have hstep := step_vtt_padded st raw p0 p1 tl h hs
  refine ⟨p0, p1, tl, hs, parseVTTTime_malformed p0, parseVTTTime_malformed p1, ?_, ?_⟩
  · simp only [parseLoop, hstep]
  · intro t htext hne ht
    have hblank : TrimSpace "" = "" := by decide
    simp only [parseLoop, hstep, step_text ".vtt" _ t hne ht, step_blank ".vtt" _ "" hblank]
    simp only [flush, htext, List.nil_append, ne_eq, List.cons_ne_self, not_false_eq_true,
      if_true, Join_singleton, reduceCtorEq]

/-- Instance of C6: the line `00:00:01.000 --> 00:02` met in the initial state. -/
theorem vtt_malformed_side_zero_witness :
    Contains (TrimSpace "00:00:01.000 --> 00:02") " --> " = true
    ∧ ∃ p0 p1 tl, Split (TrimSpace "00:00:01.000 --> 00:02") " --> " = p0 :: p1 :: tl
      ∧ ((Split p0 ":").length ≠ 3 →
          parseVTTTime p0 = (0, some ("invalid VTT time: " ++ p0)))
      ∧ ((Split p1 ":").length ≠ 3 →
          parseVTTTime p1 = (0, some ("invalid VTT time: " ++ p1)))
      ∧ parseLoop ".vtt" ParseState.init ("00:00:01.000 --> 00:02" :: ["Hi", "", "next"])
          = parseLoop ".vtt"
              { ParseState.init with
                start := (parseVTTTime p0).1, end_ := (parseVTTTime p1).1 } ["Hi", "", "next"]
      ∧ (∀ t : String, ParseState.init.text = [] → TrimSpace t ≠ "" →
          isTiming ".vtt" (TrimSpace t) = false →
          parseLoop ".vtt" ParseState.init
              ("00:00:01.000 --> 00:02" :: t :: "" :: ["Hi", "", "next"])
            = parseLoop ".vtt"
                ⟨ParseState.init.captions
                    ++ [⟨(parseVTTTime p0).1, (parseVTTTime p1).1, TrimSpace t⟩], [],
                  (parseVTTTime p0).1, (parseVTTTime p1).1⟩ ["Hi", "", "next"]) :=
  ⟨by decide,
    vtt_malformed_side_zero ParseState.init "00:00:01.000 --> 00:02" ["Hi", "", "next"]
      (by decide)⟩

/-- C7 as stated fails: an SRT timing marker followed by a blank line, or by the end of the
input, with no text line in between produces no segment at all. -/
theorem bare_timing_marker_yields_empty_track :
    parseCaptions ["00:00:01,000 --> 00:00:02,000", ""] ".srt" = some []
    ∧ parseCaptions ["00:00:01,000 --> 00:00:02,000"] ".srt" = some []
    ∧ parseCaptions ["00:00:01,000 --> 00:00:02,000", ""] ".srt" ≠ some [⟨1, 2, ""⟩] := by
  refine ⟨?_, ?_, ?_⟩ <;> with_unfolding_all decide

/-! ## Validation orchestrator: the stated properties -/

theorem digitChar_isDigit (k : Nat) (h : k < 10) : isDigit (Nat.digitChar k) = true := by
  interval_cases k <;> decide

theorem coverageCheck_types (captions : List Caption) (tStart tEnd coverage : ℚ) :
    ∀ e ∈ coverageCheck captions tStart tEnd coverage, e.Type_ = "caption_coverage" := by
  intro e he
  unfold coverageCheck at he
  simp only at he
  split_ifs at he
  · rw [List.mem_singleton] at he
    rw [he]
  · exact absurd he (List.not_mem_nil _)

theorem languageCheck_types (detected : Except String String) :
    ∀ e ∈ languageCheck detected, e.Type_ = "incorrect_language" := by
  intro e he
  unfold languageCheck at he
  split at he
  · exact absurd he (List.not_mem_nil _)
  · split_ifs at he
    · rw [List.mem_singleton] at he
      rw [he]
    · exact absurd he (List.not_mem_nil _)

theorem filter_eq_self_of_forall {α : Type} (p : α → Bool) (l : List α)
    (h : ∀ x ∈ l, p x = true) : l.filter p = l :=
  List.filter_eq_self.mpr h

theorem filter_eq_nil_of_forall {α : Type} (p : α → Bool) (l : List α)
    (h : ∀ x ∈ l, p x = false) : l.filter p = [] := by
  rw [List.filter_eq_nil_iff]
  intro x hx hp
  rw [h x hx] at hp
  exact Bool.false_ne_true hp

/-- C13: as a function of the language-detection outcome, the orchestrator emits exactly one
error of type `incorrect_language` when detection succeeds with a locale different from
`en-US`, and no language error when detection returns `en-US` or fails; these are all the
`incorrect_language` records of a run.  `fr-FR` gives one error, `en-US` gives none. -/
theorem languageCheck_spec :
    (∀ lang : String, lang ≠ "en-US" →
        languageCheck (Except.ok lang)
          = [⟨"incorrect_language", "Detected language " ++ lang ++ " is not acceptable",
              none⟩])
    ∧ languageCheck (Except.ok "en-US") = []
    ∧ (∀ err : String, languageCheck (Except.error err) = [])
    ∧ (∀ (captions : List Caption) (tStart tEnd coverage : ℚ)
        (detectLanguage : String → Except String String),
        (main captions tStart tEnd coverage detectLanguage).filter
            (fun e => decide (e.Type_ = "incorrect_language"))
          = languageCheck (detectLanguage (Join (extractText captions) "\n")))
    ∧ languageCheck (Except.ok "fr-FR")
        = [⟨"incorrect_language", "Detected language fr-FR is not acceptable", none⟩] := by
  refine ⟨?_, ?_, ?_, ?_, ?_⟩
  · intro lang h
    unfold languageCheck
    simp only [ne_eq, h, not_false_eq_true, if_true]
  · decide
  · intro err
    rfl
  · intro captions tStart tEnd coverage detectLanguage
    unfold main
    rw [List.filter_append,
      filter_eq_nil_of_forall _ _ (by
        intro e he
        rw [coverageCheck_types captions tStart tEnd coverage e he]
        decide),
      filter_eq_self_of_forall _ _ (by
        intro e he
        simp [languageCheck_types _ e he]),
      List.nil_append]
  · decide

/-- Instance of C13: the detected locale `fr-FR`. -/
theorem languageCheck_spec_witness :
    "fr-FR" ≠ "en-US"
    ∧ languageCheck (Except.ok "fr-FR")
        = [⟨"incorrect_language", "Detected language " ++ "fr-FR" ++ " is not acceptable",
            none⟩] :=
  ⟨by decide, languageCheck_spec.1 "fr-FR" (by decide)⟩

/-! ## VTT timestamps -/

theorem splitGo_single_none (c : Char) (s cur : List Char) (h : c ∉ s) :
    splitGo [c] s 0 cur = [cur.reverse ++ s] := by
  induction s generalizing cur with
  | nil => simp [splitGo]
  | cons x xs ih =>
    have hx : (c == x) = false := by
      rw [beq_eq_false_iff_ne]
      rintro rfl
      exact h (List.mem_cons_self _ _)
    rw [splitGo]
    simp only [List.isPrefixOf, hx, Bool.false_and, Bool.false_eq_true, if_false]
    rw [ih _ (fun hm => h (List.mem_cons_of_mem _ hm))]
    simp

theorem splitGo_single_cons (c : Char) (a rest cur : List Char) (h : c ∉ a) :
    splitGo [c] (a ++ c :: rest) 0 cur = (cur.reverse ++ a) :: splitGo [c] rest 0 [] := by
  induction a generalizing cur with
  | nil =>
    rw [List.nil_append, splitGo]
    simp [List.isPrefixOf]
  | cons x xs ih =>
    have hx : (c == x) = false := by
      rw [beq_eq_false_iff_ne]
      rintro rfl
      exact h (List.mem_cons_self _ _)
    rw [List.cons_append, splitGo]
    simp only [List.isPrefixOf, hx, Bool.false_and, Bool.false_eq_true, if_false]
    rw [ih _ (fun hm => h (List.mem_cons_of_mem _ hm))]
    simp

theorem Split_colon3 (H M R : String) (hH : ':' ∉ H.data) (hM : ':' ∉ M.data)
    (hR : ':' ∉ R.data) : Split (H ++ ":" ++ M ++ ":" ++ R) ":" = [H, M, R] := by
  unfold Split
  have hc : (":" : String).data = [':'] := rfl
  simp only [String.data_append, hc, List.append_assoc, List.singleton_append,
    List.cons_append, List.nil_append]
  rw [splitGo_single_cons _ _ _ _ hH, splitGo_single_cons _ _ _ _ hM,
    splitGo_single_none _ _ _ hR]
  simp

theorem Split_dot2 (S F : String) (hS : '.' ∉ S.data) (hF : '.' ∉ F.data) :
    Split (S ++ "." ++ F) "." = [S, F] := by
  unfold Split
  have hc : ("." : String).data = ['.'] := rfl
  simp only [String.data_append, hc, List.append_assoc, List.singleton_append,
    List.cons_append, List.nil_append]
  rw [splitGo_single_cons _ _ _ _ hS, splitGo_single_none _ _ _ hF]
  simp

theorem not_mem_of_digits (c : Char) (hc : isDigit c = false) (s : String)
    (h : isDigitString s = true) : c ∉ s.data := by
  unfold isDigitString at h
  simp only [Bool.and_eq_true, List.all_eq_true] at h
  intro hm
  rw [h.2 c hm] at hc
  exact Bool.noConfusion hc

/-- The value of `parseVTTTime` on `H:M:S.F` for digit strings, before any range
assumption: the wrapped integer sum of the four `Atoi` values. -/
theorem parseVTTTime_fields (H M S F : String) (hH : isDigitString H = true)
    (hM : isDigitString M = true) (hS : isDigitString S = true)
    (hF : isDigitString F = true) :
    parseVTTTime (H ++ ":" ++ M ++ ":" ++ S ++ "." ++ F)
      = (((wrapInt (Atoi H * 3600 + Atoi M * 60 + Atoi S + Int.tdiv (Atoi F) 1000) : Int) : ℚ),
          none) := by
  have hcolon : isDigit ':' = false := by decide
  have hdot : isDigit '.' = false := by decide
  have hR : ':' ∉ (S ++ "." ++ F).data := by
    simp only [String.data_append, List.mem_append, not_or]
    exact ⟨⟨not_mem_of_digits _ hcolon S hS, by decide⟩, not_mem_of_digits _ hcolon F hF⟩
  have hs : Split (H ++ ":" ++ M ++ ":" ++ S ++ "." ++ F) ":" = [H, M, S ++ "." ++ F] := by
    have : H ++ ":" ++ M ++ ":" ++ S ++ "." ++ F = H ++ ":" ++ M ++ ":" ++ (S ++ "." ++ F) := by
      simp only [String.append_assoc]
    rw [this]
    exact Split_colon3 H M _ (not_mem_of_digits _ hcolon H hH)
      (not_mem_of_digits _ hcolon M hM) hR
  unfold parseVTTTime
  rw [hs]
  simp only [Split_dot2 S F (not_mem_of_digits _ hdot S hS) (not_mem_of_digits _ hdot F hF),
    List.headD_cons]

theorem parseVTTTime_whole (s : String) : ∃ n : Int, (parseVTTTime s).1 = (n : ℚ) := by
  unfold parseVTTTime
  split
  · exact ⟨_, rfl⟩
  · exact ⟨0, by simp⟩

/-- C11 as stated fails: on the timestamp `9223372036854775807:00:00.000` the `int` product
`H*3600` wraps around and `parseVTTTime` returns -3600. -/
theorem parseVTTTime_hours_wrap :
    isDigitString "9223372036854775807" = true
    ∧ parseVTTTime ("9223372036854775807" ++ ":" ++ "00" ++ ":" ++ "00" ++ "." ++ "000")
        = (-3600, none)
    ∧ (parseVTTTime ("9223372036854775807" ++ ":" ++ "00" ++ ":" ++ "00" ++ "." ++ "000")).1
        ≠ (((decimalValue "9223372036854775807" * 3600 + decimalValue "00" * 60
              + decimalValue "00" + decimalValue "000" / 1000 : Nat) : ℚ)) := by
  have h1 : parseVTTTime ("9223372036854775807" ++ ":" ++ "00" ++ ":" ++ "00" ++ "." ++ "000")
      = (-3600, none) := by
    have hH : Atoi "9223372036854775807" = 9223372036854775807 := by decide
    have h0 : Atoi "00" = 0 := by decide
    have hF : Atoi "000" = 0 := by decide
    rw [parseVTTTime_fields _ _ _ _ (by decide) (by decide) (by decide) (by decide), hH, h0, hF]
    unfold wrapInt
    norm_num
  refine ⟨by decide, h1, ?_⟩
  rw [h1]
  intro h
  have hpos : (0 : ℚ) ≤ (((decimalValue "9223372036854775807" * 3600 + decimalValue "00" * 60
      + decimalValue "00" + decimalValue "000" / 1000 : Nat) : ℚ)) := Nat.cast_nonneg _
  rw [← h] at hpos
  norm_num at hpos

/-- C11, amended: for every VTT timestamp `H:M:S.F` with `H`, `M`, `S`, `F` non-empty
strings of decimal digits, `F` within the `int` range and `H*3600 + M*60 + S + F div 1000`
within the `int` range, `parseVTTTime` returns `H*3600 + M*60 + S + (F div 1000)` with
truncating integer division and no error; hence a fraction below 1000 (such as `.500`)
contributes nothing.  On every input the returned value is a whole number of seconds. -/
theorem parseVTTTime_digits :
    (∀ H M S F : String, isDigitString H = true → isDigitString M = true →
        isDigitString S = true → isDigitString F = true →
        (decimalValue F : Int) ≤ maxInt →
        ((decimalValue H * 3600 + decimalValue M * 60 + decimalValue S
            + decimalValue F / 1000 : Nat) : Int) ≤ maxInt →
        parseVTTTime (H ++ ":" ++ M ++ ":" ++ S ++ "." ++ F)
            = (((decimalValue H * 3600 + decimalValue M * 60 + decimalValue S
                  + decimalValue F / 1000 : Nat) : ℚ), none)
          ∧ (decimalValue F < 1000 →
              parseVTTTime (H ++ ":" ++ M ++ ":" ++ S ++ "." ++ F)
                = (((decimalValue H * 3600 + decimalValue M * 60 + decimalValue S : Nat) : ℚ),
                    none)))
    ∧ (∀ s : String, ∃ n : Int, (parseVTTTime s).1 = (n : ℚ))
    ∧ parseVTTTime "00:00:01.500" = (1, none) := by
  refine ⟨?_, parseVTTTime_whole, by with_unfolding_all decide⟩
  intro H M S F hH hM hS hF hFr htot
  have key : parseVTTTime (H ++ ":" ++ M ++ ":" ++ S ++ "." ++ F)
      = (((decimalValue H * 3600 + decimalValue M * 60 + decimalValue S
            + decimalValue F / 1000 : Nat) : ℚ), none) := by
    have hmax : maxInt = 2 ^ 63 - 1 := rfl
    rw [hmax] at hFr htot
    push_cast at htot
    have h0 : (0 : Int) ≤ (decimalValue F : Int) / 1000 := by positivity
    rw [parseVTTTime_fields H M S F hH hM hS hF,
      Atoi_digitString H hH (by rw [hmax]; omega),
      Atoi_digitString M hM (by rw [hmax]; omega),
      Atoi_digitString S hS (by rw [hmax]; omega),
      Atoi_digitString F hF (by rw [hmax]; exact hFr),
      Int.tdiv_eq_ediv (Int.natCast_nonneg _) (by norm_num),
      wrapInt_of_small _ (by positivity) (by omega)]
    norm_cast
  refine ⟨key, fun hlt => ?_⟩
  rw [key, Nat.div_eq_of_lt hlt, Nat.add_zero]

/-- Instance of C11: the timestamp `01:02:03.999`. -/
theorem parseVTTTime_digits_witness :
    (isDigitString "01" = true ∧ isDigitString "02" = true ∧ isDigitString "03" = true
      ∧ isDigitString "999" = true ∧ (decimalValue "999" : Int) ≤ maxInt
      ∧ ((decimalValue "01" * 3600 + decimalValue "02" * 60 + decimalValue "03"
            + decimalValue "999" / 1000 : Nat) : Int) ≤ maxInt)
    ∧ parseVTTTime ("01" ++ ":" ++ "02" ++ ":" ++ "03" ++ "." ++ "999")
        = (((decimalValue "01" * 3600 + decimalValue "02" * 60 + decimalValue "03"
              + decimalValue "999" / 1000 : Nat) : ℚ), none)
    ∧ (decimalValue "999" < 1000 →
        parseVTTTime ("01" ++ ":" ++ "02" ++ ":" ++ "03" ++ "." ++ "999")
          = (((decimalValue "01" * 3600 + decimalValue "02" * 60 + decimalValue "03" : Nat)
                : ℚ), none)) :=
  ⟨⟨by decide, by decide, by decide, by decide, by decide, by decide⟩,
    parseVTTTime_digits.1 "01" "02" "03" "999" (by decide) (by decide) (by decide)
      (by decide) (by decide) (by decide)⟩

/-! ## Timing values of the segments -/

theorem step_timing_eq (ext : String) (st st1 : ParseState) (raw : String)
    (hne : TrimSpace raw ≠ "") (ht : isTiming ext (TrimSpace raw) = true)
    (hs : step ext st raw = some st1) :
    st1 = { st with start := (lineTiming ext (TrimSpace raw)).1,
                    end_ := (lineTiming ext (TrimSpace raw)).2 } := by
  unfold isTiming at ht
  simp only [Bool.or_eq_true, Bool.and_eq_true, decide_eq_true_eq] at ht
  unfold step at hs
  simp only [hne, if_false] at hs
  by_cases hsrt : ext = ".srt" ∧ MatchString (TrimSpace raw) = true
  · rw [if_pos hsrt] at hs
    split at hs
    · next m1 m2 m3 m4 m5 m6 m7 m8 heq =>
      simp only [Option.some.injEq] at hs
      subst hs
      unfold lineTiming
      rw [if_pos hsrt.1, heq]
    · exact absurd hs (by simp)
  · rw [if_neg hsrt] at hs
    have hvtt : ext = ".vtt" ∧ Contains (TrimSpace raw) "-->" = true := by
      rcases ht with h | h
      · exact absurd h hsrt
      · exact h
    rw [if_pos hvtt] at hs
    split at hs
    · next p0 p1 tl heq =>
      simp only [Option.some.injEq] at hs
      subst hs
      unfold lineTiming
      rw [if_neg (by rw [hvtt.1]; decide), heq]
    · exact absurd hs (by simp)

theorem atoiChars_digits_nonneg (ds : List Char) (hne : ds ≠ [])
    (hd : ∀ c ∈ ds, isDigit c = true) : 0 ≤ atoiChars ds := by
  obtain ⟨c, cs, rfl⟩ := List.exists_cons_of_ne_nil hne
  have hc : isDigit c = true := hd c (List.mem_cons_self _ _)
  have hplus : (c == '+') = false := by
    rw [beq_eq_false_iff_ne]
    rintro rfl
    exact absurd hc (by decide)
  have hminus : (c == '-') = false := by
    rw [beq_eq_false_iff_ne]
    rintro rfl
    exact absurd hc (by decide)
  unfold atoiChars
  simp only [hplus, hminus, Bool.or_self, Bool.false_eq_true, if_false, List.isEmpty_cons,
    Bool.not_false, Bool.true_and, Bool.false_and, decide_eq_true_eq]
  cases parseUintLoop (c :: cs) 0 with
  | none => exact le_refl _
  | some un =>
    simp only
    split_ifs
    · unfold maxInt
      norm_num
    · exact Int.natCast_nonneg un

theorem hmsToSeconds_nonneg (h m s ms : String) (hh : isTwoDigits h = true)
    (hm : isTwoDigits m = true) (hs : isTwoDigits s = true)
    (hms : isDigitString ms = true) : 0 ≤ hmsToSeconds h m s ms := by
  have h1 := decimalValue_twoDigits_lt h hh
  have h2 := decimalValue_twoDigits_lt m hm
  have h3 := decimalValue_twoDigits_lt s hs
  have h4 : 0 ≤ Atoi ms := by
    unfold isDigitString at hms
    simp only [Bool.and_eq_true, Bool.not_eq_true', List.isEmpty_eq_false, List.all_eq_true]
      at hms
    exact atoiChars_digits_nonneg _ hms.1 hms.2
  unfold hmsToSeconds
  simp only [Atoi_twoDigits h hh, Atoi_twoDigits m hm, Atoi_twoDigits s hs]
  rw [wrapInt_of_small _ (by positivity) (by omega)]
  have h5 : (0 : ℚ) ≤ ((Atoi ms : Int) : ℚ) := by exact_mod_cast h4
  positivity

theorem lineTiming_srt_nonneg (line : String) :
    0 ≤ (lineTiming ".srt" line).1 ∧ 0 ≤ (lineTiming ".srt" line).2 := by
  unfold lineTiming
  rw [if_pos rfl]
  split
  · next m1 m2 m3 m4 m5 m6 m7 m8 heq =>
    obtain ⟨g1, g2, g3, g4, g5, g6, g7, g8, hg, p1, p2, p3, p4, p5, p6, p7, p8⟩ :=
      FindStringSubmatch_spec _ _ heq
    simp only [List.cons.injEq, and_true] at hg
    obtain ⟨rfl, rfl, rfl, rfl, rfl, rfl, rfl, rfl⟩ := hg
    exact ⟨hmsToSeconds_nonneg _ _ _ _ p1 p2 p3 p4, hmsToSeconds_nonneg _ _ _ _ p5 p6 p7 p8⟩
  · exact ⟨le_refl _, le_refl _⟩

/-- Loop invariant of the SRT parser: the current timing and every closed segment are
non-negative. -/
theorem step_srt_nonneg (st st1 : ParseState) (raw : String)
    (h : 0 ≤ st.start ∧ 0 ≤ st.end_ ∧ ∀ c ∈ st.captions, 0 ≤ c.Start ∧ 0 ≤ c.End)
    (hs : step ".srt" st raw = some st1) :
    0 ≤ st1.start ∧ 0 ≤ st1.end_ ∧ ∀ c ∈ st1.captions, 0 ≤ c.Start ∧ 0 ≤ c.End := by
  have hflush : ∀ s : ParseState,
      (0 ≤ s.start ∧ 0 ≤ s.end_ ∧ ∀ c ∈ s.captions, 0 ≤ c.Start ∧ 0 ≤ c.End) →
      0 ≤ (flush s).start ∧ 0 ≤ (flush s).end_
        ∧ ∀ c ∈ (flush s).captions, 0 ≤ c.Start ∧ 0 ≤ c.End := by
    intro s hs0
    unfold flush
    split_ifs
    · refine ⟨hs0.1, hs0.2.1, ?_⟩
      intro c hc
      simp only [List.mem_append, List.mem_singleton] at hc
      rcases hc with hc | rfl
      · exact hs0.2.2 c hc
      · exact ⟨hs0.1, hs0.2.1⟩
    · exact hs0
  by_cases hb : TrimSpace raw = ""
  · rw [step_blank ".srt" st raw hb] at hs
    simp only [Option.some.injEq] at hs
    subst hs
    exact hflush st h
  · cases ht : isTiming ".srt" (TrimSpace raw) with
    | true =>
      rw [step_timing_eq ".srt" st st1 raw hb ht hs]
      exact ⟨(lineTiming_srt_nonneg _).1, (lineTiming_srt_nonneg _).2, h.2.2⟩
    | false =>
      rw [step_text ".srt" st raw hb ht] at hs
      simp only [Option.some.injEq] at hs
      subst hs
      exact h

theorem parseLoop_srt_nonneg (lines : List String) :
    ∀ st st1 : ParseState,
      (0 ≤ st.start ∧ 0 ≤ st.end_ ∧ ∀ c ∈ st.captions, 0 ≤ c.Start ∧ 0 ≤ c.End) →
      parseLoop ".srt" st lines = some st1 →
      0 ≤ st1.start ∧ 0 ≤ st1.end_ ∧ ∀ c ∈ st1.captions, 0 ≤ c.Start ∧ 0 ≤ c.End := by
  induction lines with
  | nil =>
    intro st st1 h hs
    simp only [parseLoop, Option.some.injEq] at hs
    subst hs
    exact h
  | cons l ls ih =>
    intro st st1 h hs
    simp only [parseLoop] at hs
    cases hstep : step ".srt" st l with
    | none => rw [hstep] at hs; exact absurd hs (by simp)
    | some s1 =>
      rw [hstep] at hs
      exact ih s1 st1 (step_srt_nonneg st s1 l h hstep) hs

/-- C14 as stated fails: in the VTT file `-1:00:00.000 --> 00:00:01.000`, `Hi` the signed
hours field is accepted by `strconv.Atoi` and the segment starts at -3600. -/
theorem vtt_negative_start :
    parseCaptions ["-1:00:00.000 --> 00:00:01.000", "Hi"] ".vtt" = some [⟨-3600, 1, "Hi"⟩]
    ∧ ¬ (∀ c ∈ [(⟨-3600, 1, "Hi"⟩ : Caption)], 0 ≤ c.Start ∧ 0 ≤ c.End) := by
  refine ⟨by decide, ?_⟩
  intro h
  have := (h ⟨-3600, 1, "Hi"⟩ (List.mem_singleton.mpr rfl)).1
  norm_num at this

/-- C14, amended: for the SRT format and for every input, `parseCaptions` returns a track and
every segment of it has start >= 0 and end >= 0. -/
theorem parseCaptions_srt_nonneg (lines : List String) :
    ∃ caps, parseCaptions lines ".srt" = some caps
      ∧ ∀ c ∈ caps, 0 ≤ c.Start ∧ 0 ≤ c.End := by
  obtain ⟨st1, h1⟩ := parseLoop_srt_isSome lines ParseState.init
  have hinit : 0 ≤ ParseState.init.start ∧ 0 ≤ ParseState.init.end_
      ∧ ∀ c ∈ ParseState.init.captions, 0 ≤ c.Start ∧ 0 ≤ c.End :=
    ⟨le_refl _, le_refl _, fun c hc => absurd hc (List.not_mem_nil _)⟩
  have hinv := parseLoop_srt_nonneg lines _ _ hinit h1
  refine ⟨(flush st1).captions, by simp only [parseCaptions, h1, Option.map_some'], ?_⟩
  intro c hc
  unfold flush at hc
  split_ifs at hc
  · simp only [List.mem_append, List.mem_singleton] at hc
    rcases hc with hc | rfl
    · exact hinv.2.2 c hc
    · exact ⟨hinv.1, hinv.2.1⟩
  · exact hinv.2.2 c hc

/-! ## The track, block by block -/

theorem isTiming_empty (ext : String) : isTiming ext "" = false := by
  have h1 : MatchString "" = false := rfl
  have h2 : Contains "" "-->" = false := rfl
  simp [isTiming, h1, h2]

theorem lastTimingFrom_nil (ext : String) (cur : ℚ × ℚ) : lastTimingFrom ext cur [] = cur := rfl

theorem lastTimingFrom_cons_timing (ext : String) (cur : ℚ × ℚ) (l : String)
    (ls : List String) (h : isTiming ext (TrimSpace l) = true) :
    lastTimingFrom ext cur (l :: ls)
      = lastTimingFrom ext (lineTiming ext (TrimSpace l)) ls := by
  have hf : List.filter (fun l => isTiming ext (TrimSpace l)) (l :: ls)
      = l :: List.filter (fun l => isTiming ext (TrimSpace l)) ls := by
    simp [List.filter_cons, h]
  unfold lastTimingFrom timingLines
  rw [hf, List.getLast?_cons]
  cases (List.filter (fun l => isTiming ext (TrimSpace l)) ls).getLast? <;> rfl

theorem lastTimingFrom_cons_other (ext : String) (cur : ℚ × ℚ) (l : String)
    (ls : List String) (h : isTiming ext (TrimSpace l) = false) :
    lastTimingFrom ext cur (l :: ls) = lastTimingFrom ext cur ls := by
  have hf : List.filter (fun l => isTiming ext (TrimSpace l)) (l :: ls)
      = List.filter (fun l => isTiming ext (TrimSpace l)) ls := by
    simp [List.filter_cons, h]
  unfold lastTimingFrom timingLines
  rw [hf]

theorem lastTimingFrom_append (ext : String) (cur : ℚ × ℚ) (xs ys : List String) :
    lastTimingFrom ext cur (xs ++ ys) = lastTimingFrom ext (lastTimingFrom ext cur xs) ys := by
  induction xs generalizing cur with
  | nil => rfl
  | cons x xs ih =>
    cases h : isTiming ext (TrimSpace x) with
    | true =>
      rw [List.cons_append, lastTimingFrom_cons_timing ext _ x _ h,
        lastTimingFrom_cons_timing ext _ x _ h, ih]
    | false =>
      rw [List.cons_append, lastTimingFrom_cons_other ext _ x _ h,
        lastTimingFrom_cons_other ext _ x _ h, ih]

theorem lastTimingFrom_of_no_timing (ext : String) (cur : ℚ × ℚ) (lines : List String)
    (h : timingLines ext lines = []) : lastTimingFrom ext cur lines = cur := by
  unfold lastTimingFrom
  rw [h]
  rfl

theorem lastTiming_snoc_timing (ext : String) (seen : List String) (l : String)
    (h : isTiming ext (TrimSpace l) = true) :
    lastTiming ext (seen ++ [l]) = lineTiming ext (TrimSpace l) := by
  unfold lastTiming
  rw [lastTimingFrom_append, lastTimingFrom_cons_timing ext _ l _ h, lastTimingFrom_nil]

theorem lastTiming_snoc_other (ext : String) (seen : List String) (l : String)
    (h : isTiming ext (TrimSpace l) = false) :
    lastTiming ext (seen ++ [l]) = lastTiming ext seen := by
  unfold lastTiming
  rw [lastTimingFrom_append, lastTimingFrom_cons_other ext _ l _ h, lastTimingFrom_nil]

theorem flush_timing (st : ParseState) :
    (flush st).start = st.start ∧ (flush st).end_ = st.end_ := by
  unfold flush
  split_ifs <;> exact ⟨rfl, rfl⟩

theorem flush_captions (st : ParseState) :
    (flush st).captions
      = st.captions
        ++ (if st.text ≠ [] then [⟨st.start, st.end_, Join st.text " "⟩] else []) := by
  unfold flush
  split_ifs <;> simp

theorem flush_of_no_text (st : ParseState) (h : st.text = []) : flush st = st := by
  simp [flush, h]

theorem pendingTrack_nil_pending (ext : String) (seen : List String)
    (blocks : List (List String)) :
    pendingTrack ext seen [] blocks = trackOfBlocks ext seen blocks := by
  cases blocks with
  | nil => rfl
  | cons b bs => simp [pendingTrack, trackOfBlocks]

/-- The loop refines the block-by-block track: with `seen` the lines read so far and the
current timing that of the last timing line in `seen`, the segments closed from here on are
those of the remaining blocks. -/
theorem parseLoop_track (ext : String) (lines : List String) :
    ∀ (st st1 : ParseState) (seen : List String),
      (st.start, st.end_) = lastTiming ext seen →
      parseLoop ext st lines = some st1 →
      (flush st1).captions
        = st.captions ++ pendingTrack ext seen st.text (lines.splitOnP isBlankLine) := by
  induction lines with
  | nil =>
    intro st st1 seen hcur h
    simp only [parseLoop, Option.some.injEq] at h
    subst h
    have h1 : st.start = (lastTiming ext seen).1 := congrArg Prod.fst hcur
    have h2 : st.end_ = (lastTiming ext seen).2 := congrArg Prod.snd hcur
    rw [flush_captions, List.splitOnP_nil]
    simp [pendingTrack, trackOfBlocks, blockTextLines, h1, h2]
  | cons l ls ih =>
    intro st st1 seen hcur h
    have h1 : st.start = (lastTiming ext seen).1 := congrArg Prod.fst hcur
    have h2 : st.end_ = (lastTiming ext seen).2 := congrArg Prod.snd hcur
    rw [List.splitOnP_cons]
    simp only [parseLoop] at h
    by_cases hb : TrimSpace l = ""
    · rw [step_blank ext st l hb] at h
      simp only at h
      have hbl : isBlankLine l = true := by simp [isBlankLine, hb]
      have hcur1 : ((flush st).start, (flush st).end_) = lastTiming ext seen := by
        rw [(flush_timing st).1, (flush_timing st).2]
        exact hcur
      rw [if_pos hbl, ih _ _ seen hcur1 h, flush_text, pendingTrack_nil_pending,
        flush_captions, List.append_assoc]
      simp [pendingTrack, blockTextLines, h1, h2]
    · have hbl : ¬ isBlankLine l = true := by simp [isBlankLine, hb]
      rw [if_neg hbl]
      obtain ⟨b, bs, hsplit⟩ := List.exists_cons_of_ne_nil (List.splitOnP_ne_nil isBlankLine ls)
      rw [hsplit] at ih ⊢
      simp only [List.modifyHead_cons]
      have hseen : seen ++ [l] ++ b = seen ++ l :: b := by simp
      cases ht : isTiming ext (TrimSpace l) with
      | true =>
        cases hs : step ext st l with
        | none => rw [hs] at h; exact absurd h (by simp)
        | some s1 =>
          rw [hs] at h
          have hs1 := step_timing_eq ext st s1 l hb ht hs
          have hcur1 : (s1.start, s1.end_) = lastTiming ext (seen ++ [l]) := by
            rw [lastTiming_snoc_timing ext seen l ht, hs1]
          rw [ih _ _ _ hcur1 h]
          have htx : blockTextLines ext (l :: b) = blockTextLines ext b := by
            simp [blockTextLines, ht]
          have hc : s1.captions = st.captions := by rw [hs1]
          have htext : s1.text = st.text := by rw [hs1]
          simp only [pendingTrack, hseen, htx, hc, htext]
      | false =>
        rw [step_text ext st l hb ht] at h
        have hcur1 : (st.start, st.end_) = lastTiming ext (seen ++ [l]) := by
          rw [lastTiming_snoc_other ext seen l ht]
          exact hcur
        rw [ih { st with text := st.text ++ [TrimSpace l] } st1 (seen ++ [l]) hcur1 h]
        have htx : blockTextLines ext (l :: b) = TrimSpace l :: blockTextLines ext b := by
          simp [blockTextLines, ht]
        simp only [pendingTrack, hseen, htx, List.append_assoc, List.singleton_append]

theorem parseCaptions_eq_trackSpec (lines : List String) (ext : String)
    (caps : List Caption) (h : parseCaptions lines ext = some caps) :
    caps = trackSpec ext lines := by
  unfold parseCaptions at h
  simp only [Option.map_eq_some'] at h
  obtain ⟨st1, hloop, rfl⟩ := h
  rw [parseLoop_track ext lines _ _ [] rfl hloop]
  simp [ParseState.init, pendingTrack_nil_pending, trackSpec]

theorem trackOfBlocks_length (ext : String) (blocks : List (List String)) :
    ∀ seen : List String,
      (trackOfBlocks ext seen blocks).length
        = (blocks.filter (fun b => !(blockTextLines ext b).isEmpty)).length := by
  induction blocks with
  | nil => intro seen; rfl
  | cons b bs ih =>
    intro seen
    unfold trackOfBlocks
    rw [List.length_append, ih]
    by_cases hb : blockTextLines ext b = []
    · simp [hb]
    · have : (blockTextLines ext b).isEmpty = false := by simpa using hb
      simp [hb, this]
      omega

theorem parseLoop_timing (ext : String) (lines : List String) :
    ∀ st st1 : ParseState, parseLoop ext st lines = some st1 →
      (st1.start, st1.end_) = lastTimingFrom ext (st.start, st.end_) lines := by
  induction lines with
  | nil =>
    intro st st1 h
    simp only [parseLoop, Option.some.injEq] at h
    subst h
    rfl
  | cons l ls ih =>
    intro st st1 h
    simp only [parseLoop] at h
    by_cases hb : TrimSpace l = ""
    · rw [step_blank ext st l hb] at h
      have ht : isTiming ext (TrimSpace l) = false := by rw [hb]; exact isTiming_empty ext
      rw [ih _ _ h, (flush_timing st).1, (flush_timing st).2,
        lastTimingFrom_cons_other ext _ l ls ht]
    · cases ht : isTiming ext (TrimSpace l) with
      | true =>
        cases hs : step ext st l with
        | none => rw [hs] at h; exact absurd h (by simp)
        | some s1 =>
          rw [hs] at h
          rw [ih _ _ h, lastTimingFrom_cons_timing ext _ l ls ht,
            step_timing_eq ext st s1 l hb ht hs]
      | false =>
        rw [step_text ext st l hb ht] at h
        rw [ih _ _ h, lastTimingFrom_cons_other ext _ l ls ht]

theorem parseLoop_text_block (ext : String) (block : List String) :
    ∀ st : ParseState,
      (∀ l ∈ block, TrimSpace l ≠ "" ∧ isTiming ext (TrimSpace l) = false) →
      parseLoop ext st block = some { st with text := st.text ++ block.map TrimSpace } := by
  induction block with
  | nil => intro st _; simp [parseLoop]
  | cons l ls ih =>
    intro st h
    have hl := h l (List.mem_cons_self _ _)
    simp only [parseLoop, step_text ext st l hl.1 hl.2]
    rw [ih _ (fun x hx => h x (List.mem_cons_of_mem _ hx))]
    simp

theorem step_blank_of_no_text (ext : String) (st : ParseState) (blank : String)
    (htext : st.text = []) (hb : TrimSpace blank = "") : step ext st blank = some st := by
  rw [step_blank ext st blank hb, flush_of_no_text st htext]

theorem parseCaptions_insert_blank (ext : String) (before after : List String)
    (blank : String) (hb : TrimSpace blank = "")
    (hpend : ∀ st, parseLoop ext ParseState.init before = some st → st.text = []) :
    parseCaptions (before ++ blank :: after) ext = parseCaptions (before ++ after) ext := by
  unfold parseCaptions
  rw [parseLoop_append, parseLoop_append]
  cases h : parseLoop ext ParseState.init before with
  | none => rfl
  | some st =>
    simp only [Option.some_bind, parseLoop, step_blank_of_no_text ext st blank (hpend st h) hb]

theorem parseLoop_snoc (ext : String) (before : List String) (l : String)
    (st : ParseState) (h : parseLoop ext ParseState.init (before ++ [l]) = some st) :
    ∃ s0, parseLoop ext ParseState.init before = some s0 ∧ step ext s0 l = some st := by
  rw [parseLoop_append] at h
  cases h0 : parseLoop ext ParseState.init before with
  | none => rw [h0] at h; exact absurd h (by simp)
  | some s0 =>
    rw [h0] at h
    simp only [Option.some_bind, parseLoop] at h
    cases hs : step ext s0 l with
    | none => rw [hs] at h; exact absurd h (by simp)
    | some s1 =>
      rw [hs] at h
      simp only [Option.some.injEq] at h
      subst h
      exact ⟨s0, rfl, hs⟩

/-! ## Blank lines, end of input and timing lines: the stated properties -/

/-- C15: a blank line met while no text is pending is a no-op for the parser: for every line
sequence and format, inserting a blank or whitespace-only line at the start of the input,
directly after another blank line, or directly after a timing line that has no pending text
yields the same track; the loop body leaves such a state unchanged. -/
theorem blank_without_pending_noop :
    (∀ (ext : String) (st : ParseState) (blank : String),
        st.text = [] → TrimSpace blank = "" → step ext st blank = some st)
    ∧ (∀ (lines : List String) (ext blank : String), TrimSpace blank = "" →
        parseCaptions (blank :: lines) ext = parseCaptions lines ext)
    ∧ (∀ (before after : List String) (ext b1 b2 : String),
        TrimSpace b1 = "" → TrimSpace b2 = "" →
        parseCaptions (before ++ b1 :: b2 :: after) ext
          = parseCaptions (before ++ b1 :: after) ext)
    ∧ (∀ (before after : List String) (ext t blank : String),
        (∀ st, parseLoop ext ParseState.init before = some st → st.text = []) →
        TrimSpace t ≠ "" → isTiming ext (TrimSpace t) = true → TrimSpace blank = "" →
        parseCaptions (before ++ t :: blank :: after) ext
          = parseCaptions (before ++ t :: after) ext) := by
  refine ⟨step_blank_of_no_text, ?_, ?_, ?_⟩
  · intro lines ext blank hb
    exact parseCaptions_insert_blank ext [] lines blank hb (by
      intro st h
      simp only [parseLoop, Option.some.injEq] at h
      subst h
      rfl)
  · intro before after ext b1 b2 h1 h2
    have e1 : before ++ b1 :: b2 :: after = (before ++ [b1]) ++ b2 :: after := by simp
    have e2 : before ++ b1 :: after = (before ++ [b1]) ++ after := by simp
    rw [e1, e2]
    apply parseCaptions_insert_blank ext _ _ b2 h2
    intro st h
    obtain ⟨s0, -, hs⟩ := parseLoop_snoc ext before b1 st h
    rw [step_blank ext s0 b1 h1] at hs
    simp only [Option.some.injEq] at hs
    subst hs
    exact flush_text s0
  · intro before after ext t blank hpend hne ht hb
    have e1 : before ++ t :: blank :: after = (before ++ [t]) ++ blank :: after := by simp
    have e2 : before ++ t :: after = (before ++ [t]) ++ after := by simp
    rw [e1, e2]
    apply parseCaptions_insert_blank ext _ _ blank hb
    intro st h
    obtain ⟨s0, h0, hs⟩ := parseLoop_snoc ext before t st h
    rw [(step_timing ext s0 st t hne ht hs).2]
    exact hpend s0 h0

/-- Instance of C15: a whitespace-only line inserted after the timing line of the second
block of an SRT file. -/
theorem blank_without_pending_noop_witness :
    ((∀ st, parseLoop ".srt" ParseState.init ["00:00:01,000 --> 00:00:02,000", "a", ""]
          = some st → st.text = [])
      ∧ TrimSpace "00:00:03,000 --> 00:00:04,000" ≠ ""
      ∧ isTiming ".srt" (TrimSpace "00:00:03,000 --> 00:00:04,000") = true
      ∧ TrimSpace " \t" = "")
    ∧ parseCaptions (["00:00:01,000 --> 00:00:02,000", "a", ""]
          ++ "00:00:03,000 --> 00:00:04,000" :: " \t" :: ["b"]) ".srt"
        = parseCaptions (["00:00:01,000 --> 00:00:02,000", "a", ""]
          ++ "00:00:03,000 --> 00:00:04,000" :: ["b"]) ".srt" :=
  have hpend : ∀ st, parseLoop ".srt" ParseState.init
      ["00:00:01,000 --> 00:00:02,000", "a", ""] = some st → st.text = [] := by
    intro st h
    have h1 : parseLoop ".srt" ParseState.init ["00:00:01,000 --> 00:00:02,000", "a", ""]
        = some ⟨[⟨1, 2, "a"⟩], [], 1, 2⟩ := by with_unfolding_all decide
    rw [h1] at h
    simp only [Option.some.injEq] at h
    subst h
    rfl
  ⟨⟨hpend, by decide, by decide, by decide⟩,
    blank_without_pending_noop.2.2.2 ["00:00:01,000 --> 00:00:02,000", "a", ""] ["b"] ".srt"
      "00:00:03,000 --> 00:00:04,000" " \t" hpend (by decide) (by decide) (by decide)⟩

/-- C16: end of input flushes pending text exactly as a blank line does: for every line
sequence and format, parsing the lines gives the same track as parsing the lines followed by
one extra blank line; and when text is pending at end of input the final segment carries the
most recently recorded start and end, those of the last timing line of the input (0 and 0
when there is none). -/
theorem eof_flushes_like_blank :
    (∀ (lines : List String) (ext blank : String), TrimSpace blank = "" →
        parseCaptions (lines ++ [blank]) ext = parseCaptions lines ext)
    ∧ (∀ (lines : List String) (ext : String) (st : ParseState),
        parseLoop ext ParseState.init lines = some st → st.text ≠ [] →
        (st.start, st.end_) = lastTiming ext lines
          ∧ parseCaptions lines ext
              = some (st.captions
                  ++ [⟨(lastTiming ext lines).1, (lastTiming ext lines).2,
                        Join st.text " "⟩])) := by
  constructor
  · intro lines ext blank hb
    unfold parseCaptions
    rw [parseLoop_append]
    cases h : parseLoop ext ParseState.init lines with
    | none => rfl
    | some st =>
      simp only [Option.some_bind, parseLoop, step_blank ext st blank hb, Option.map_some',
        flush_of_no_text (flush st) (flush_text st)]
  · intro lines ext st hloop htext
    have hcur : (st.start, st.end_) = lastTiming ext lines := by
      have := parseLoop_timing ext lines _ _ hloop
      simpa [ParseState.init, lastTiming] using this
    refine ⟨hcur, ?_⟩
    unfold parseCaptions
    rw [hloop, Option.map_some', flush_captions, if_pos htext, ← hcur]

/-- Instance of C16: an SRT file that ends in a text line, with and without a final
whitespace-only line. -/
theorem eof_flushes_like_blank_witness :
    (TrimSpace "  " = ""
      ∧ parseCaptions (["00:00:01,000 --> 00:00:02,000", "a", "b"] ++ ["  "]) ".srt"
          = parseCaptions ["00:00:01,000 --> 00:00:02,000", "a", "b"] ".srt")
    ∧ (parseLoop ".srt" ParseState.init ["00:00:01,000 --> 00:00:02,000", "a", "b"]
          = some ⟨[], ["a", "b"], 1, 2⟩
        ∧ (⟨[], ["a", "b"], 1, 2⟩ : ParseState).text ≠ [])
    ∧ ((⟨[], ["a", "b"], 1, 2⟩ : ParseState).start, (⟨[], ["a", "b"], 1, 2⟩ : ParseState).end_)
        = lastTiming ".srt" ["00:00:01,000 --> 00:00:02,000", "a", "b"]
    ∧ parseCaptions ["00:00:01,000 --> 00:00:02,000", "a", "b"] ".srt"
        = some ((⟨[], ["a", "b"], 1, 2⟩ : ParseState).captions
            ++ [⟨(lastTiming ".srt" ["00:00:01,000 --> 00:00:02,000", "a", "b"]).1,
                  (lastTiming ".srt" ["00:00:01,000 --> 00:00:02,000", "a", "b"]).2,
                  Join (⟨[], ["a", "b"], 1, 2⟩ : ParseState).text " "⟩]) :=
  ⟨⟨by decide,
      eof_flushes_like_blank.1 ["00:00:01,000 --> 00:00:02,000", "a", "b"] ".srt" "  "
        (by decide)⟩,
    ⟨by with_unfolding_all decide, by decide⟩,
    eof_flushes_like_blank.2 ["00:00:01,000 --> 00:00:02,000", "a", "b"] ".srt"
      ⟨[], ["a", "b"], 1, 2⟩ (by with_unfolding_all decide) (by decide)⟩

/-- The general statement behind C17, for every input on which the loop does not panic: a
timing line never closes a segment and never adds text; the returned track (one is returned
for every SRT input) is the block-by-block track of the input: the number of segments equals
the number of blank-line-delimited blocks that contain at least one text line, and each
segment carries the start and end of the last timing line seen before the segment closed (0
and 0 when none was seen); a timing line placed between two text lines of a block leaves them
in one pending segment. -/
theorem parseCaptions_track :
    (∀ (ext : String) (st st1 : ParseState) (t : String),
        TrimSpace t ≠ "" → isTiming ext (TrimSpace t) = true → step ext st t = some st1 →
        st1.captions = st.captions ∧ st1.text = st.text)
    ∧ (∀ (lines : List String) (ext : String) (caps : List Caption),
        parseCaptions lines ext = some caps →
        caps = trackSpec ext lines
          ∧ caps.length
              = ((lines.splitOnP isBlankLine).filter
                  (fun b => !(blockTextLines ext b).isEmpty)).length)
    ∧ (∀ lines : List String, ∃ caps, parseCaptions lines ".srt" = some caps
        ∧ caps = trackSpec ".srt" lines)
    ∧ (∀ (ext : String) (st st1 : ParseState) (a t b : String),
        TrimSpace a ≠ "" → isTiming ext (TrimSpace a) = false →
        TrimSpace t ≠ "" → isTiming ext (TrimSpace t) = true →
        TrimSpace b ≠ "" → isTiming ext (TrimSpace b) = false →
        parseLoop ext st [a, t, b] = some st1 →
        st1.captions = st.captions ∧ st1.text = st.text ++ [TrimSpace a, TrimSpace b]
          ∧ (st1.start, st1.end_) = lineTiming ext (TrimSpace t)) := by
  refine ⟨?_, ?_, ?_, ?_⟩
  · intro ext st st1 t hne ht hs
    exact step_timing ext st st1 t hne ht hs
  · intro lines ext caps h
    have hcaps := parseCaptions_eq_trackSpec lines ext caps h
    refine ⟨hcaps, ?_⟩
    rw [hcaps, trackSpec, trackOfBlocks_length]
  · intro lines
    obtain ⟨st1, h1⟩ := parseLoop_srt_isSome lines ParseState.init
    have hp : parseCaptions lines ".srt" = some (flush st1).captions := by
      simp only [parseCaptions, h1, Option.map_some']
    exact ⟨_, hp, parseCaptions_eq_trackSpec _ _ _ hp⟩
  · intro ext st st1 a t b ha1 ha2 ht1 ht2 hb1 hb2 h
    simp only [parseLoop, step_text ext st a ha1 ha2] at h
    cases hs : step ext { st with text := st.text ++ [TrimSpace a] } t with
    | none => rw [hs] at h; exact absurd h (by simp)
    | some s1 =>
      rw [hs] at h
      have hs1 := step_timing_eq ext _ s1 t ht1 ht2 hs
      simp only [step_text ext s1 b hb1 hb2, Option.some.injEq] at h
      subst h
      rw [hs1]
      simp

/-- An instance of the block-by-block track: a VTT file with a header block, a cue whose
timing line stands between two text lines, and a block holding only a timing line. -/
theorem parseCaptions_track_witness :
    parseCaptions ["WEBVTT", "", "one", "00:00:01.000 --> 00:00:02.000", "two", "",
        "00:00:05.000 --> 00:00:06.000", "", "three"] ".vtt"
      = some [⟨0, 0, "WEBVTT"⟩, ⟨1, 2, "one two"⟩, ⟨5, 6, "three"⟩]
    ∧ [⟨0, 0, "WEBVTT"⟩, ⟨1, 2, "one two"⟩, ⟨5, 6, "three"⟩]
        = trackSpec ".vtt" ["WEBVTT", "", "one", "00:00:01.000 --> 00:00:02.000", "two", "",
            "00:00:05.000 --> 00:00:06.000", "", "three"]
    ∧ [(⟨0, 0, "WEBVTT"⟩ : Caption), ⟨1, 2, "one two"⟩, ⟨5, 6, "three"⟩].length
        = ((["WEBVTT", "", "one", "00:00:01.000 --> 00:00:02.000", "two", "",
              "00:00:05.000 --> 00:00:06.000", "", "three"].splitOnP isBlankLine).filter
            (fun b => !(blockTextLines ".vtt" b).isEmpty)).length :=
  ⟨by decide, parseCaptions_track.2.1 _ ".vtt" _ (by decide)⟩

/-- C18: the parser's current timing is not reset when a segment closes: a block of text that
has no timing line of its own, met with no text pending, produces a segment with the start
and end of the most recent earlier timing line, and with start 0 and end 0 when no timing line
has been seen yet; the timing is still in force after the segment is closed. -/
theorem timing_kept_across_segments :
    (∀ st : ParseState, (flush st).start = st.start ∧ (flush st).end_ = st.end_)
    ∧ (∀ (ext : String) (before block : List String) (st : ParseState) (blank : String),
        parseLoop ext ParseState.init before = some st → st.text = [] → block ≠ [] →
        (∀ l ∈ block, TrimSpace l ≠ "" ∧ isTiming ext (TrimSpace l) = false) →
        TrimSpace blank = "" →
        parseLoop ext ParseState.init (before ++ block ++ [blank])
            = some ⟨st.captions
                ++ [⟨(lastTiming ext before).1, (lastTiming ext before).2,
                      Join (block.map TrimSpace) " "⟩], [],
                (lastTiming ext before).1, (lastTiming ext before).2⟩
          ∧ parseCaptions (before ++ block) ext
              = some (st.captions
                  ++ [⟨(lastTiming ext before).1, (lastTiming ext before).2,
                        Join (block.map TrimSpace) " "⟩]))
    ∧ (∀ (ext : String) (xs ys : List String) (t : String),
        isTiming ext (TrimSpace t) = true → timingLines ext ys = [] →
        lastTiming ext (xs ++ t :: ys) = lineTiming ext (TrimSpace t))
    ∧ (∀ (ext : String) (lines : List String),
        timingLines ext lines = [] → lastTiming ext lines = (0, 0))
    ∧ parseCaptions ["00:00:01,000 --> 00:00:02,000", "a", "", "b", "", "c"] ".srt"
        = some [⟨1, 2, "a"⟩, ⟨1, 2, "b"⟩, ⟨1, 2, "c"⟩]
    ∧ parseCaptions ["a", "", "b"] ".srt" = some [⟨0, 0, "a"⟩, ⟨0, 0, "b"⟩] := by
  refine ⟨flush_timing, ?_, ?_, ?_, by with_unfolding_all decide, by with_unfolding_all decide⟩
  · intro ext before block st blank hloop htext hne hblock hb
    have hcur : (st.start, st.end_) = lastTiming ext before := by
      have := parseLoop_timing ext before _ _ hloop
      simpa [ParseState.init, lastTiming] using this
    have h1 : st.start = (lastTiming ext before).1 := congrArg Prod.fst hcur
    have h2 : st.end_ = (lastTiming ext before).2 := congrArg Prod.snd hcur
    have hmap : block.map TrimSpace ≠ [] := by simpa using hne
    have hb1 : parseLoop ext ParseState.init (before ++ block)
        = some { st with text := block.map TrimSpace } := by
      rw [parseLoop_append, hloop, Option.some_bind, parseLoop_text_block ext block st hblock,
        htext, List.nil_append]
    constructor
    · rw [parseLoop_append, hb1]
      simp only [Option.some_bind, parseLoop, step_blank ext _ blank hb, flush, ne_eq, hmap,
        not_false_eq_true, if_true, h1, h2]
    · unfold parseCaptions
      rw [hb1]
      simp only [Option.map_some', flush, ne_eq, hmap, not_false_eq_true, if_true, h1, h2]
  · intro ext xs ys t ht hys
    unfold lastTiming
    rw [lastTimingFrom_append, lastTimingFrom_cons_timing ext _ t ys ht,
      lastTimingFrom_of_no_timing ext _ ys hys]
  · intro ext lines h
    exact lastTimingFrom_of_no_timing ext _ lines h

/-- Instance of C18: after one closed SRT segment, a block of two text lines without a timing
line of its own. -/
theorem timing_kept_across_segments_witness :
    (parseLoop ".srt" ParseState.init ["00:00:01,000 --> 00:00:02,000", "a", ""]
        = some ⟨[⟨1, 2, "a"⟩], [], 1, 2⟩
      ∧ (⟨[⟨1, 2, "a"⟩], [], 1, 2⟩ : ParseState).text = []
      ∧ ["b", "c"] ≠ []
      ∧ (∀ l ∈ ["b", "c"], TrimSpace l ≠ "" ∧ isTiming ".srt" (TrimSpace l) = false)
      ∧ TrimSpace "" = "")
    ∧ parseLoop ".srt" ParseState.init
          (["00:00:01,000 --> 00:00:02,000", "a", ""] ++ ["b", "c"] ++ [""])
        = some ⟨(⟨[⟨1, 2, "a"⟩], [], 1, 2⟩ : ParseState).captions
            ++ [⟨(lastTiming ".srt" ["00:00:01,000 --> 00:00:02,000", "a", ""]).1,
                  (lastTiming ".srt" ["00:00:01,000 --> 00:00:02,000", "a", ""]).2,
                  Join (["b", "c"].map TrimSpace) " "⟩], [],
            (lastTiming ".srt" ["00:00:01,000 --> 00:00:02,000", "a", ""]).1,
            (lastTiming ".srt" ["00:00:01,000 --> 00:00:02,000", "a", ""]).2⟩
    ∧ parseCaptions (["00:00:01,000 --> 00:00:02,000", "a", ""] ++ ["b", "c"]) ".srt"
        = some ((⟨[⟨1, 2, "a"⟩], [], 1, 2⟩ : ParseState).captions
            ++ [⟨(lastTiming ".srt" ["00:00:01,000 --> 00:00:02,000", "a", ""]).1,
                  (lastTiming ".srt" ["00:00:01,000 --> 00:00:02,000", "a", ""]).2,
                  Join (["b", "c"].map TrimSpace) " "⟩]) :=
  ⟨⟨by with_unfolding_all decide, rfl, by decide, by decide, by decide⟩,
    timing_kept_across_segments.2.1 ".srt" ["00:00:01,000 --> 00:00:02,000", "a", ""]
      ["b", "c"] ⟨[⟨1, 2, "a"⟩], [], 1, 2⟩ "" (by with_unfolding_all decide) rfl (by decide)
      (by decide) (by decide)⟩

/-! ## Coverage of non-overlapping tracks -/

theorem sum_filter_split (f : Caption → ℚ) (p : Caption → Bool) (l : List Caption) :
    (l.map f).sum
      = ((l.filter p).map f).sum + ((l.filter (fun x => !p x)).map f).sum := by
  induction l with
  | nil => simp
  | cons x xs ih =>
    cases h : p x with
    | true =>
      simp only [List.map_cons, List.sum_cons, List.filter_cons, h, if_true, Bool.not_true,
        Bool.false_eq_true, if_false, ih]
      ring
    | false =>
      simp only [List.map_cons, List.sum_cons, List.filter_cons, h, if_true, Bool.not_false,
        Bool.false_eq_true, if_false, ih]
      ring

theorem three_pieces (a b s e : ℚ) (h : s < e) :
    Max.max 0 (Min.min e b - Max.max s a) + Max.max 0 (Min.min b s - a)
        + Max.max 0 (b - Max.max a e)
      ≤ Max.max 0 (b - a) := by
  simp only [max_def, min_def]
  split_ifs <;> linarith

theorem overlapSpec_left (a b s : ℚ) (d : Caption) (h : d.End ≤ s) :
    overlapSpec a b d = overlapSpec a (Min.min b s) d := by
  unfold overlapSpec
  have : Min.min d.End (Min.min b s) = Min.min d.End b := by
    simp only [min_def]
    split_ifs <;> linarith
  rw [this]

theorem overlapSpec_right (a b e : ℚ) (d : Caption) (h : d.End ≤ d.Start ∨ e ≤ d.Start) :
    overlapSpec a b d = overlapSpec (Max.max a e) b d := by
  rcases h with h | h
  · rw [overlapSpec_degenerate a b d h, overlapSpec_degenerate _ b d h]
  · unfold overlapSpec
    have : Max.max d.Start (Max.max a e) = Max.max d.Start a := by
      simp only [max_def]
      split_ifs <;> linarith
    rw [this]

theorem not_overlaps_cases (c d : Caption) (hc : c.Start < c.End) (h : ¬ overlaps c d) :
    d.End ≤ c.Start ∨ d.End ≤ d.Start ∨ c.End ≤ d.Start := by
  by_contra hcon
  simp only [not_or, not_le] at hcon
  obtain ⟨h1, h2, h3⟩ := hcon
  apply h
  refine ⟨Max.max c.Start d.Start, le_max_left _ _, max_lt hc h3, le_max_right _ _,
    max_lt h1 h2⟩

theorem sum_overlap_le_of_disjoint (n : Nat) :
    ∀ (captions : List Caption), captions.length ≤ n →
      captions.Pairwise (fun c d => ¬ overlaps c d) →
      ∀ a b : ℚ, (captions.map (overlapSpec a b)).sum ≤ Max.max 0 (b - a) := by
  induction n with
  | zero =>
    intro captions hlen _ a b
    have : captions = [] := List.length_eq_zero.mp (Nat.le_zero.mp hlen)
    subst this
    simp
  | succ n ih =>
    intro captions hlen hpw a b
    cases captions with
    | nil => simp
    | cons c cs =>
      have hcs : cs.length ≤ n := by
        simp only [List.length_cons] at hlen
        omega
      obtain ⟨hc, hpw1⟩ := List.pairwise_cons.mp hpw
      simp only [List.map_cons, List.sum_cons]
      rcases le_or_lt c.End c.Start with hdeg | hpos
      · rw [overlapSpec_degenerate a b c hdeg, zero_add]
        exact ih cs hcs hpw1 a b
      · rw [sum_filter_split (overlapSpec a b) (fun d => decide (d.End ≤ c.Start)) cs]
        have hl : ((cs.filter (fun d => decide (d.End ≤ c.Start))).map (overlapSpec a b)).sum
            ≤ Max.max 0 (Min.min b c.Start - a) := by
          rw [List.map_congr_left (g := overlapSpec a (Min.min b c.Start)) (by
            intro d hd
            have := (List.mem_filter.mp hd).2
            exact overlapSpec_left a b c.Start d (of_decide_eq_true this))]
          exact ih _ (le_trans (List.length_filter_le _ _) hcs) (hpw1.filter _) a _
        have hr : ((cs.filter (fun d => !decide (d.End ≤ c.Start))).map
            (overlapSpec a b)).sum ≤ Max.max 0 (b - Max.max a c.End) := by
          rw [List.map_congr_left (g := overlapSpec (Max.max a c.End) b) (by
            intro d hd
            obtain ⟨hmem, hnot⟩ := List.mem_filter.mp hd
            have hnle : ¬ d.End ≤ c.Start := by simpa using hnot
            rcases not_overlaps_cases c d hpos (hc d hmem) with h | h | h
            · exact absurd h hnle
            · exact overlapSpec_right a b c.End d (Or.inl h)
            · exact overlapSpec_right a b c.End d (Or.inr h))]
          exact ih _ (le_trans (List.length_filter_le _ _) hcs) (hpw1.filter _) _ b
        have h3 := three_pieces a b c.Start c.End hpos
        have hov : overlapSpec a b c = Max.max 0 (Min.min c.End b - Max.max c.Start a) := rfl
        rw [hov]
        linarith

theorem overlapSpec_mono_left (a a1 b : ℚ) (d : Caption) (h : a ≤ a1) :
    overlapSpec a1 b d ≤ overlapSpec a b d := by
  unfold overlapSpec
  simp only [max_def, min_def]
  split_ifs <;> linarith

theorem sum_overlap_ge_of_cover (n : Nat) :
    ∀ (captions : List Caption), captions.length = n →
      ∀ a b : ℚ, a < b → coversTarget captions a b →
      b - a ≤ (captions.map (overlapSpec a b)).sum := by
  induction n with
  | zero =>
    intro captions hlen a b hab hcov
    have : captions = [] := List.length_eq_zero.mp hlen
    subst this
    obtain ⟨c, hc, -⟩ := hcov a (le_refl a) hab
    exact absurd hc (List.not_mem_nil c)
  | succ n ih =>
    intro captions hlen a b hab hcov
    obtain ⟨c, hc, hca, hce⟩ := hcov a (le_refl a) hab
    have hperm := List.perm_cons_erase hc
    rw [(hperm.map (overlapSpec a b)).sum_eq]
    simp only [List.map_cons, List.sum_cons]
    have hrest0 : 0 ≤ ((captions.erase c).map (overlapSpec a b)).sum :=
      sum_overlapSpec_nonneg a b _
    rcases le_or_lt b c.End with hbe | hbe
    · have hov : overlapSpec a b c = b - a := by
        unfold overlapSpec
        rw [min_eq_right hbe, max_eq_right hca, max_eq_right (by linarith)]
      rw [hov]
      linarith
    · have hov : overlapSpec a b c = c.End - a := by
        unfold overlapSpec
        rw [min_eq_left hbe.le, max_eq_right hca, max_eq_right (by linarith)]
      have hlen1 : (captions.erase c).length = n := by
        rw [List.length_erase_of_mem hc, hlen]
        rfl
      have hcov1 : coversTarget (captions.erase c) c.End b := by
        intro x hx1 hx2
        obtain ⟨d, hd, hd1, hd2⟩ := hcov x (by linarith) hx2
        have hne : d ≠ c := by
          rintro rfl
          linarith
        exact ⟨d, (List.mem_erase_of_ne hne).mpr hd, hd1, hd2⟩
      have h1 := ih _ hlen1 c.End b hbe hcov1
      have h2 : ((captions.erase c).map (overlapSpec c.End b)).sum
          ≤ ((captions.erase c).map (overlapSpec a b)).sum :=
        List.sum_le_sum (fun d _ => overlapSpec_mono_left a c.End b d (by linarith))
      rw [hov]
      linarith

/-- C19, amended: in exact arithmetic, for every target interval with `tEnd > tStart` and
every track whose segments all have `Start <= End` and are pairwise non-overlapping as
half-open intervals, `calcCoverage` is at most 1, and it equals 1 when the segments together
cover the whole target interval. -/
theorem calcCoverage_le_one_of_disjoint :
    (∀ (captions : List Caption) (tStart tEnd : ℚ), tStart < tEnd →
        (∀ c ∈ captions, c.Start ≤ c.End) →
        captions.Pairwise (fun c d => ¬ overlaps c d) →
        calcCoverage captions tStart tEnd ≤ 1)
    ∧ (∀ (captions : List Caption) (tStart tEnd : ℚ), tStart < tEnd →
        (∀ c ∈ captions, c.Start ≤ c.End) →
        captions.Pairwise (fun c d => ¬ overlaps c d) →
        coversTarget captions tStart tEnd →
        calcCoverage captions tStart tEnd = 1) := by
  have hup : ∀ (captions : List Caption) (tStart tEnd : ℚ), tStart < tEnd →
      captions.Pairwise (fun c d => ¬ overlaps c d) →
      (captions.map (overlapSpec tStart tEnd)).sum ≤ tEnd - tStart := by
    intro captions tStart tEnd h hpw
    have := sum_overlap_le_of_disjoint captions.length captions (le_refl _) hpw tStart tEnd
    rwa [max_eq_right (sub_pos.mpr h).le] at this
  constructor
  · intro captions tStart tEnd h _ hpw
    rw [calcCoverage_of_pos captions tStart tEnd h, div_le_one (sub_pos.mpr h)]
    exact hup captions tStart tEnd h hpw
  · intro captions tStart tEnd h _ hpw hcov
    rw [calcCoverage_of_pos captions tStart tEnd h, div_eq_one_iff_eq (sub_pos.mpr h).ne']
    exact le_antisymm (hup captions tStart tEnd h hpw)
      (sum_overlap_ge_of_cover captions.length captions rfl tStart tEnd h hcov)

/-- Instance of C19: the out-of-order track `{5,10}`, `{0,5}` on the target `[0, 10]`, which
it covers, and on the target `[0, 20]`, which it does not. -/
theorem calcCoverage_le_one_of_disjoint_witness :
    ((0 : ℚ) < 20
      ∧ (∀ c ∈ [(⟨5, 10, "b"⟩ : Caption), ⟨0, 5, "a"⟩], c.Start ≤ c.End)
      ∧ [(⟨5, 10, "b"⟩ : Caption), ⟨0, 5, "a"⟩].Pairwise (fun c d => ¬ overlaps c d)
      ∧ calcCoverage [⟨5, 10, "b"⟩, ⟨0, 5, "a"⟩] 0 20 ≤ 1)
    ∧ ((0 : ℚ) < 10
      ∧ coversTarget [⟨5, 10, "b"⟩, ⟨0, 5, "a"⟩] 0 10
      ∧ calcCoverage [⟨5, 10, "b"⟩, ⟨0, 5, "a"⟩] 0 10 = 1) :=
  have hvalid : ∀ c ∈ [(⟨5, 10, "b"⟩ : Caption), ⟨0, 5, "a"⟩], c.Start ≤ c.End := by
    intro c hc
    simp only [List.mem_cons, List.mem_singleton, List.not_mem_nil, or_false] at hc
    rcases hc with rfl | rfl <;> norm_num
  have hpw : [(⟨5, 10, "b"⟩ : Caption), ⟨0, 5, "a"⟩].Pairwise
      (fun c d => ¬ overlaps c d) := by
    refine List.pairwise_cons.mpr ⟨?_, List.pairwise_singleton _ _⟩
    intro d hd
    rw [List.mem_singleton] at hd
    subst hd
    rintro ⟨x, h1, -, -, h4⟩
    simp only at h1 h4
    linarith
  have hcov : coversTarget [⟨5, 10, "b"⟩, ⟨0, 5, "a"⟩] 0 10 := by
    intro x hx1 hx2
    rcases lt_or_le x 5 with h | h
    · exact ⟨⟨0, 5, "a"⟩, by simp, hx1, h⟩
    · exact ⟨⟨5, 10, "b"⟩, by simp, h, hx2⟩
  ⟨⟨by norm_num, hvalid, hpw,
      calcCoverage_le_one_of_disjoint.1 _ 0 20 (by norm_num) hvalid hpw⟩,
    ⟨by norm_num, hcov,
      calcCoverage_le_one_of_disjoint.2 _ 0 10 (by norm_num) hvalid hpw hcov⟩⟩

/-! ## Binary64 rounding: evaluation lemmas -/

theorem roundTiesEven_near (x : ℚ) (m : Int) (h : |x - m| < 1 / 2) :
    roundTiesEven x = m := by
  rw [abs_lt] at h
  unfold roundTiesEven
  rcases le_or_lt (m : ℚ) x with hx | hx
  · have hf : ⌊x⌋ = m := by
      rw [Int.floor_eq_iff]
      constructor
      · exact hx
      · linarith
    simp only [hf]
    rw [if_pos (by linarith)]
  · have hf : ⌊x⌋ = m - 1 := by
      rw [Int.floor_eq_iff]
      push_cast
      constructor <;> linarith
    simp only [hf]
    push_cast
    rw [if_neg (by linarith), if_pos (by linarith)]
    ring

theorem roundTiesEven_tie (x : ℚ) (m : Int) (heven : m % 2 = 0) (h : |x - m| = 1 / 2) :
    roundTiesEven x = m := by
  unfold roundTiesEven
  rcases abs_eq (by norm_num : (0 : ℚ) ≤ 1 / 2) |>.mp h with hx | hx
  · have hf : ⌊x⌋ = m := by
      rw [Int.floor_eq_iff]
      constructor <;> linarith
    simp only [hf]
    rw [if_neg (by linarith), if_neg (by linarith), if_pos heven]
  · have hf : ⌊x⌋ = m - 1 := by
      rw [Int.floor_eq_iff]
      push_cast
      constructor <;> linarith
    simp only [hf]
    push_cast
    rw [if_neg (by linarith), if_neg (by linarith), if_neg (by omega)]
    ring

theorem log2_eq (q : ℚ) (k : Int) (hq : 0 < q) (h1 : (2 : ℚ) ^ k ≤ q)
    (h2 : q < (2 : ℚ) ^ (k + 1)) : Int.log 2 q = k := by
  have hb : 1 < 2 := by norm_num
  have a1 : k ≤ Int.log 2 q := by
    rw [← Int.zpow_le_iff_le_log hb hq]
    simpa using h1
  have a2 : Int.log 2 q < k + 1 := by
    rw [← Int.lt_zpow_iff_log_lt hb hq]
    simpa using h2
  omega

/-- Evaluation of `roundF64` at a positive value: with `2^(e+52) <= q < 2^(e+53)` the unit in
the last place is `2^e`, and the result is `m * 2^e` for the integer `m` that `q / 2^e`
rounds to. -/
theorem roundF64_eval (q v : ℚ) (m e : Int) (hq : 0 < q) (h1 : (2 : ℚ) ^ (e + 52) ≤ q)
    (h2 : q < (2 : ℚ) ^ (e + 52 + 1)) (he : -1074 ≤ e)
    (hm : roundTiesEven (q / 2 ^ e) = m) (hv : (m : ℚ) * 2 ^ e = v) : roundF64 q = v := by
  unfold roundF64
  rw [if_neg hq.ne']
  simp only
  rw [abs_of_pos hq, log2_eq q (e + 52) hq h1 h2]
  have : Max.max (e + 52 - 52) (-1074) = e := by
    rw [add_sub_cancel_right]
    exact max_eq_left he
  rw [this, hm, hv]

theorem coverStepF64_eval (tStart tEnd covered : ℚ) (c : Caption) (s e d v : ℚ)
    (hs : max c.Start tStart = s) (he : min c.End tEnd = e) (hlt : e > s)
    (hd : roundF64 (e - s) = d) (hv : roundF64 (covered + d) = v) :
    coverStepF64 tStart tEnd covered c = v := by
  unfold coverStepF64
  simp only [hs, he]
  rw [if_pos hlt, hd, hv]

theorem calcCoverageF64_eval (captions : List Caption) (tStart tEnd total cov v : ℚ)
    (ht : roundF64 (tEnd - tStart) = total) (hpos : 0 < total)
    (hc : captions.foldl (coverStepF64 tStart tEnd) 0 = cov)
    (hv : roundF64 (cov / total) = v) : calcCoverageF64 captions tStart tEnd = v := by
  unfold calcCoverageF64
  simp only [ht]
  rw [if_neg (not_le.mpr hpos), hc, hv]

/-! ## Binary64 rounding: where it decides -/

theorem millisecondCues_coverage :
    roundF64 (123 / 1000) = 553942754166571 / 4503599627370496
    ∧ roundF64 (2124 / 1000) = 4782822804267467 / 2251799813685248
    ∧ calcCoverageF64 millisecondCues 0 3 = 4503599627370497 / 4503599627370496 := by
  have ha : roundF64 (123 / 1000) = 553942754166571 / 4503599627370496 :=
    roundF64_eval _ _ 8863084066665136 (-56) (by norm_num) (by norm_num) (by norm_num) (by norm_num)
      (roundTiesEven_near _ _ (by norm_num [abs_lt])) (by norm_num)
  have hb : roundF64 (2124 / 1000) = 4782822804267467 / 2251799813685248 :=
    roundF64_eval _ _ 4782822804267467 (-51) (by norm_num) (by norm_num) (by norm_num) (by norm_num)
      (roundTiesEven_near _ _ (by norm_num [abs_lt])) (by norm_num)
  have htot : roundF64 (3 - 0) = 3 :=
    roundF64_eval _ _ 6755399441055744 (-51) (by norm_num) (by norm_num) (by norm_num) (by norm_num)
      (roundTiesEven_near _ _ (by norm_num [abs_lt])) (by norm_num)
  have hd1 : roundF64 (553942754166571 / 4503599627370496 - 0)
      = 553942754166571 / 4503599627370496 :=
    roundF64_eval _ _ 8863084066665136 (-56) (by norm_num) (by norm_num) (by norm_num) (by norm_num)
      (roundTiesEven_near _ _ (by norm_num [abs_lt])) (by norm_num)
  have hc1 : roundF64 (0 + 553942754166571 / 4503599627370496)
      = 553942754166571 / 4503599627370496 :=
    roundF64_eval _ _ 8863084066665136 (-56) (by norm_num) (by norm_num) (by norm_num) (by norm_num)
      (roundTiesEven_near _ _ (by norm_num [abs_lt])) (by norm_num)
  have hd2 : roundF64 (4782822804267467 / 2251799813685248 - 553942754166571 / 4503599627370496)
      = 2252925713592091 / 1125899906842624 :=
    roundF64_eval _ _ 4505851427184182 (-51) (by norm_num) (by norm_num) (by norm_num) (by norm_num)
      (roundTiesEven_tie _ _ (by norm_num)
        ((abs_eq (by norm_num)).mpr (Or.inr (by norm_num)))) (by norm_num)
  have hc2 : roundF64 (553942754166571 / 4503599627370496 + 2252925713592091 / 1125899906842624)
      = 1195705701066867 / 562949953421312 :=
    roundF64_eval _ _ 4782822804267468 (-51) (by norm_num) (by norm_num) (by norm_num) (by norm_num)
      (roundTiesEven_tie _ _ (by norm_num)
        ((abs_eq (by norm_num)).mpr (Or.inr (by norm_num)))) (by norm_num)
  have hd3 : roundF64 (3 - 4782822804267467 / 2251799813685248)
      = 1972576636788277 / 2251799813685248 :=
    roundF64_eval _ _ 7890306547153108 (-53) (by norm_num) (by norm_num) (by norm_num) (by norm_num)
      (roundTiesEven_near _ _ (by norm_num [abs_lt])) (by norm_num)
  have hc3 : roundF64 (1195705701066867 / 562949953421312 + 1972576636788277 / 2251799813685248)
      = 6755399441055745 / 2251799813685248 :=
    roundF64_eval _ _ 6755399441055745 (-51) (by norm_num) (by norm_num) (by norm_num) (by norm_num)
      (roundTiesEven_near _ _ (by norm_num [abs_lt])) (by norm_num)
  have hres : roundF64 (6755399441055745 / 2251799813685248 / 3)
      = 4503599627370497 / 4503599627370496 :=
    roundF64_eval _ _ 4503599627370497 (-52) (by norm_num) (by norm_num) (by norm_num) (by norm_num)
      (roundTiesEven_near _ _ (by norm_num [abs_lt])) (by norm_num)
  have hs1 : coverStepF64 0 3 0 ⟨0, 553942754166571 / 4503599627370496, "a"⟩
      = 553942754166571 / 4503599627370496 :=
    coverStepF64_eval 0 3 0 _ 0 (553942754166571 / 4503599627370496) _ _
      (by norm_num [max]) (by norm_num [min]) (by norm_num) hd1 hc1
  have hs2 : coverStepF64 0 3 (553942754166571 / 4503599627370496)
      ⟨553942754166571 / 4503599627370496, 4782822804267467 / 2251799813685248, "b"⟩
      = 1195705701066867 / 562949953421312 :=
    coverStepF64_eval 0 3 _ _ (553942754166571 / 4503599627370496)
      (4782822804267467 / 2251799813685248) _ _
      (by norm_num [max]) (by norm_num [min]) (by norm_num) hd2 hc2
  have hs3 : coverStepF64 0 3 (1195705701066867 / 562949953421312)
      ⟨4782822804267467 / 2251799813685248, 3, "c"⟩
      = 6755399441055745 / 2251799813685248 :=
    coverStepF64_eval 0 3 _ _ (4782822804267467 / 2251799813685248) 3 _ _
      (by norm_num [max]) (by norm_num [min]) (by norm_num) hd3 hc3
  refine ⟨ha, hb, ?_⟩
  refine calcCoverageF64_eval _ 0 3 3 (6755399441055745 / 2251799813685248) _ htot
    (by norm_num) ?_ hres
  simp only [millisecondCues, List.foldl_cons, List.foldl_nil]
  rw [hs1, hs2, hs3]

/-- C19 as stated fails in binary64: the cues `0 - 0.123`, `0.123 - 2.124`, `2.124 - 3` have
`Start <= End`, do not overlap and cover the target `[0, 3]`, and `calcCoverage` returns
`1 + 2^-52` (printed 1.0000000000000002), which is above 1 and is not 1. -/
theorem calcCoverageF64_disjoint_cover_above_one :
    (∀ c ∈ millisecondCues, c.Start ≤ c.End)
    ∧ millisecondCues.Pairwise (fun c d => ¬ overlaps c d)
    ∧ coversTarget millisecondCues 0 3
    ∧ calcCoverageF64 millisecondCues 0 3 = 4503599627370497 / 4503599627370496
    ∧ ¬ calcCoverageF64 millisecondCues 0 3 ≤ 1
    ∧ calcCoverageF64 millisecondCues 0 3 ≠ 1 := by
  have hval := millisecondCues_coverage.2.2
  refine ⟨?_, ?_, ?_, hval, ?_, ?_⟩
  · intro c hc
    simp only [millisecondCues, List.mem_cons, List.mem_singleton, List.not_mem_nil,
      or_false] at hc
    rcases hc with rfl | rfl | rfl <;> norm_num
  · unfold millisecondCues
    refine List.pairwise_cons.mpr ⟨?_, List.pairwise_cons.mpr ⟨?_, List.pairwise_singleton _ _⟩⟩
    · intro d hd
      simp only [List.mem_cons, List.mem_singleton, List.not_mem_nil, or_false] at hd
      rcases hd with rfl | rfl
      · rintro ⟨x, -, h2, h3, -⟩
        simp only at h2 h3
        linarith
      · rintro ⟨x, -, h2, h3, -⟩
        simp only at h2 h3
        linarith
    · intro d hd
      rw [List.mem_singleton] at hd
      subst hd
      rintro ⟨x, -, h2, h3, -⟩
      simp only at h2 h3
      linarith
  · intro x hx1 hx2
    unfold millisecondCues
    rcases lt_or_le x (553942754166571 / 4503599627370496) with h1 | h1
    · exact ⟨_, List.mem_cons_self _ _, hx1, h1⟩
    · rcases lt_or_le x (4782822804267467 / 2251799813685248) with h2 | h2
      · exact ⟨_, List.mem_cons_of_mem _ (List.mem_cons_self _ _), h1, h2⟩
      · exact ⟨_, List.mem_cons_of_mem _ (List.mem_cons_of_mem _ (List.mem_cons_self _ _)),
          h2, hx2⟩
  · rw [hval]
    norm_num
  · rw [hval]
    norm_num

theorem coverage_29_of_100 :
    calcCoverageF64 [⟨0, 29, "x"⟩] 0 100 = 5224175567749775 / 18014398509481984
    ∧ roundF64 (29 / 100) = 5224175567749775 / 18014398509481984
    ∧ roundF64 (5224175567749775 / 18014398509481984 * 100)
        = 8162774324609023 / 281474976710656 := by
  have htot : roundF64 (100 - 0) = 100 :=
    roundF64_eval _ _ 7036874417766400 (-46) (by norm_num) (by norm_num) (by norm_num) (by norm_num)
      (roundTiesEven_near _ _ (by norm_num [abs_lt])) (by norm_num)
  have hd1 : roundF64 (29 - 0) = 29 :=
    roundF64_eval _ _ 8162774324609024 (-48) (by norm_num) (by norm_num) (by norm_num) (by norm_num)
      (roundTiesEven_near _ _ (by norm_num [abs_lt])) (by norm_num)
  have hc1 : roundF64 (0 + 29) = 29 :=
    roundF64_eval _ _ 8162774324609024 (-48) (by norm_num) (by norm_num) (by norm_num) (by norm_num)
      (roundTiesEven_near _ _ (by norm_num [abs_lt])) (by norm_num)
  have hcov : roundF64 (29 / 100) = 5224175567749775 / 18014398509481984 :=
    roundF64_eval _ _ 5224175567749775 (-54) (by norm_num) (by norm_num) (by norm_num) (by norm_num)
      (roundTiesEven_near _ _ (by norm_num [abs_lt])) (by norm_num)
  have hprod : roundF64 (5224175567749775 / 18014398509481984 * 100)
      = 8162774324609023 / 281474976710656 :=
    roundF64_eval _ _ 8162774324609023 (-48) (by norm_num) (by norm_num) (by norm_num) (by norm_num)
      (roundTiesEven_near _ _ (by norm_num [abs_lt])) (by norm_num)
  have hs1 : coverStepF64 0 100 0 ⟨0, 29, "x"⟩ = 29 :=
    coverStepF64_eval 0 100 0 _ 0 29 _ _
      (by norm_num [max]) (by norm_num [min]) (by norm_num) hd1 hc1
  refine ⟨?_, hcov, hprod⟩
  refine calcCoverageF64_eval _ 0 100 100 29 _ htot (by norm_num) ?_ hcov
  simp only [List.foldl_cons, List.foldl_nil]
  rw [hs1]

/-- C12 as stated fails in binary64: with one cue `0 - 29` on the target `[0, 100]` and
required 29 percent the computed coverage is the binary64 value of 0.29, `coverage*100` is
below 29 (28.999999999999996 once rounded, and also as an exact product), and yet the check
passes: no error is produced. -/
theorem coverageCheckF64_passes_below_required :
    calcCoverageF64 [⟨0, 29, "x"⟩] 0 100 = 5224175567749775 / 18014398509481984
    ∧ roundF64 (calcCoverageF64 [⟨0, 29, "x"⟩] 0 100 * 100) < 29
    ∧ calcCoverageF64 [⟨0, 29, "x"⟩] 0 100 * 100 < 29
    ∧ coverageCheckF64 [⟨0, 29, "x"⟩] 0 100 29 = [] := by
  obtain ⟨hcov, hthr, hprod⟩ := coverage_29_of_100
  refine ⟨hcov, ?_, ?_, ?_⟩
  · rw [hcov, hprod]
    norm_num
  · rw [hcov]
    norm_num
  · unfold coverageCheckF64
    simp only [hcov, hthr]
    rw [if_neg (lt_irrefl _)]

theorem coverage_4_of_10 :
    calcCoverageF64 [⟨0, 4, "x"⟩] 0 10 = 3602879701896397 / 9007199254740992
    ∧ roundF64 (50 / 100) = 1 / 2
    ∧ roundF64 (3602879701896397 / 9007199254740992 * 100) = 40 := by
  have htot : roundF64 (10 - 0) = 10 :=
    roundF64_eval _ _ 5629499534213120 (-49) (by norm_num) (by norm_num) (by norm_num) (by norm_num)
      (roundTiesEven_near _ _ (by norm_num [abs_lt])) (by norm_num)
  have hd1 : roundF64 (4 - 0) = 4 :=
    roundF64_eval _ _ 4503599627370496 (-50) (by norm_num) (by norm_num) (by norm_num) (by norm_num)
      (roundTiesEven_near _ _ (by norm_num [abs_lt])) (by norm_num)
  have hc1 : roundF64 (0 + 4) = 4 :=
    roundF64_eval _ _ 4503599627370496 (-50) (by norm_num) (by norm_num) (by norm_num) (by norm_num)
      (roundTiesEven_near _ _ (by norm_num [abs_lt])) (by norm_num)
  have hcov : roundF64 (4 / 10) = 3602879701896397 / 9007199254740992 :=
    roundF64_eval _ _ 7205759403792794 (-54) (by norm_num) (by norm_num) (by norm_num) (by norm_num)
      (roundTiesEven_near _ _ (by norm_num [abs_lt])) (by norm_num)
  have hthr : roundF64 (50 / 100) = 1 / 2 :=
    roundF64_eval _ _ 4503599627370496 (-53) (by norm_num) (by norm_num) (by norm_num) (by norm_num)
      (roundTiesEven_near _ _ (by norm_num [abs_lt])) (by norm_num)
  have hprod : roundF64 (3602879701896397 / 9007199254740992 * 100) = 40 :=
    roundF64_eval _ _ 5629499534213120 (-47) (by norm_num) (by norm_num) (by norm_num) (by norm_num)
      (roundTiesEven_near _ _ (by norm_num [abs_lt])) (by norm_num)
  have hs1 : coverStepF64 0 10 0 ⟨0, 4, "x"⟩ = 4 :=
    coverStepF64_eval 0 10 0 _ 0 4 _ _
      (by norm_num [max]) (by norm_num [min]) (by norm_num) hd1 hc1
  refine ⟨?_, hthr, hprod⟩
  refine calcCoverageF64_eval _ 0 10 10 4 _ htot (by norm_num) ?_ hcov
  simp only [List.foldl_cons, List.foldl_nil]
  rw [hs1]

/-- C12, amended: the coverage check of the orchestrator passes (prints nothing) exactly when
the computed coverage is not below `required / 100`, the quotient being rounded to binary64;
in exact arithmetic this is `coverage*100 >= required percent`.  Otherwise it produces exactly
one error, of type `caption_coverage`, whose description carries the achieved and the required
percentage, each printed with two decimals; these are all the `caption_coverage` records of a
run.  Computed coverage 0.40 with required 50 gives exactly one such error, with `40.00%` and
`50.00%` in its description, in exact arithmetic and in binary64 alike. -/
theorem coverageCheck_spec :
    (∀ (captions : List Caption) (tStart tEnd coverage : ℚ),
        (coverageCheck captions tStart tEnd coverage = []
          ↔ coverage ≤ calcCoverage captions tStart tEnd * 100)
        ∧ (¬ coverage ≤ calcCoverage captions tStart tEnd * 100 →
            coverageCheck captions tStart tEnd coverage
              = [⟨"caption_coverage",
                  "Coverage too low: " ++ formatFixed2 (calcCoverage captions tStart tEnd * 100)
                    ++ "% < required " ++ formatFixed2 coverage ++ "%", none⟩])
        ∧ (∀ detectLanguage : String → Except String String,
            (main captions tStart tEnd coverage detectLanguage).filter
                (fun e => decide (e.Type_ = "caption_coverage"))
              = coverageCheck captions tStart tEnd coverage))
    ∧ (∀ q : ℚ, ∃ (front : List Char) (d1 d2 : Char),
        (formatFixed2 q).data = front ++ ['.', d1, d2]
          ∧ isDigit d1 = true ∧ isDigit d2 = true)
    ∧ calcCoverage [⟨0, 4, "x"⟩] 0 10 = 40 / 100
    ∧ coverageCheck [⟨0, 4, "x"⟩] 0 10 50
        = [⟨"caption_coverage", "Coverage too low: 40.00% < required 50.00%", none⟩]
    ∧ Contains "Coverage too low: 40.00% < required 50.00%" "40.00%" = true
    ∧ Contains "Coverage too low: 40.00% < required 50.00%" "50.00%" = true
    ∧ (∀ (captions : List Caption) (tStart tEnd coverage : ℚ),
        (coverageCheckF64 captions tStart tEnd coverage = []
          ↔ ¬ calcCoverageF64 captions tStart tEnd < roundF64 (coverage / 100))
        ∧ (calcCoverageF64 captions tStart tEnd < roundF64 (coverage / 100) →
            coverageCheckF64 captions tStart tEnd coverage
              = [⟨"caption_coverage",
                  "Coverage too low: "
                    ++ formatFixed2 (roundF64 (calcCoverageF64 captions tStart tEnd * 100))
                    ++ "% < required " ++ formatFixed2 coverage ++ "%", none⟩]))
    ∧ calcCoverageF64 [⟨0, 4, "x"⟩] 0 10 = 3602879701896397 / 9007199254740992
    ∧ coverageCheckF64 [⟨0, 4, "x"⟩] 0 10 50
        = [⟨"caption_coverage", "Coverage too low: 40.00% < required 50.00%", none⟩] := by
  refine ⟨fun captions tStart tEnd coverage => ⟨?_, ?_, ?_⟩, ?_, ?_, ?_, ?_, ?_,
    fun captions tStart tEnd coverage => ⟨?_, ?_⟩, coverage_4_of_10.1, ?_⟩
  · have hiff : calcCoverage captions tStart tEnd < coverage / 100
        ↔ ¬ coverage ≤ calcCoverage captions tStart tEnd * 100 := by
      rw [not_le, lt_div_iff₀ (by norm_num : (0 : ℚ) < 100)]
    unfold coverageCheck
    simp only
    split_ifs with h
    · simp only [reduceCtorEq, false_iff]
      exact hiff.mp h
    · simp only [true_iff]
      exact not_not.mp (fun hc => h (hiff.mpr hc))
  · intro hlow
    have h : calcCoverage captions tStart tEnd < coverage / 100 := by
      rw [lt_div_iff₀ (by norm_num : (0 : ℚ) < 100)]
      exact not_le.mp hlow
    unfold coverageCheck
    simp only
    rw [if_pos h]
  · intro detectLanguage
    unfold main
    rw [List.filter_append,
      filter_eq_self_of_forall _ _ (by
        intro e he
        simp [coverageCheck_types captions tStart tEnd coverage e he]),
      filter_eq_nil_of_forall _ _ (by
        intro e he
        rw [languageCheck_types _ e he]
        decide),
      List.append_nil]
  · intro q
    refine ⟨((if q < 0 then "-" else "") ++ Nat.repr (roundHalfEven (|q| * 100) / 100)).data,
      Nat.digitChar (roundHalfEven (|q| * 100) / 10 % 10),
      Nat.digitChar (roundHalfEven (|q| * 100) % 10), ?_,
      digitChar_isDigit _ (Nat.mod_lt _ (by norm_num)),
      digitChar_isDigit _ (Nat.mod_lt _ (by norm_num))⟩
    unfold formatFixed2
    simp only [String.data_append, List.append_assoc]
    rfl
  · rw [calcCoverage_of_pos _ _ _ (by norm_num)]
    norm_num [overlapSpec]
  · with_unfolding_all decide
  · decide
  · decide
  · unfold coverageCheckF64
    simp only
    split_ifs with h
    · simp only [reduceCtorEq, false_iff, not_not]
      exact h
    · simp only [true_iff]
      exact h
  · intro h
    unfold coverageCheckF64
    simp only
    rw [if_pos h]
  · obtain ⟨hcov, hthr, hprod⟩ := coverage_4_of_10
    unfold coverageCheckF64
    simp only [hcov, hthr, hprod]
    rw [if_pos (by norm_num)]
    with_unfolding_all decide

/-- Instance of C12: one segment `{0, 4}` on target `[0, 10]` with required 50 percent, in
exact arithmetic and in binary64. -/
theorem coverageCheck_spec_witness :
    (¬ (50 : ℚ) ≤ calcCoverage [⟨0, 4, "x"⟩] 0 10 * 100
      ∧ coverageCheck [⟨0, 4, "x"⟩] 0 10 50
          = [⟨"caption_coverage",
              "Coverage too low: " ++ formatFixed2 (calcCoverage [⟨0, 4, "x"⟩] 0 10 * 100)
                ++ "% < required " ++ formatFixed2 50 ++ "%", none⟩])
    ∧ (calcCoverageF64 [⟨0, 4, "x"⟩] 0 10 < roundF64 (50 / 100)
      ∧ coverageCheckF64 [⟨0, 4, "x"⟩] 0 10 50
          = [⟨"caption_coverage",
              "Coverage too low: "
                ++ formatFixed2 (roundF64 (calcCoverageF64 [⟨0, 4, "x"⟩] 0 10 * 100))
                ++ "% < required " ++ formatFixed2 50 ++ "%", none⟩]) :=
  have hlt : calcCoverageF64 [⟨0, 4, "x"⟩] 0 10 < roundF64 (50 / 100) := by
    rw [coverage_4_of_10.1, coverage_4_of_10.2.1]
    norm_num
  ⟨⟨by rw [coverageCheck_spec.2.2.1]; norm_num,
      (coverageCheck_spec.1 [⟨0, 4, "x"⟩] 0 10 50).2.1
        (by rw [calcCoverage_of_pos _ _ _ (by norm_num)]; norm_num [overlapSpec])⟩,
    ⟨hlt, (coverageCheck_spec.2.2.2.2.2.2.1 [⟨0, 4, "x"⟩] 0 10 50).2 hlt⟩⟩

/-- C7, amended: a timing marker met while no text is pending and followed by a blank line or
by the end of the input, with no text line in between, produces no segment: the marker and
the blank line leave the closed segments and the empty text buffer as they were and only
record the marker's start and end as the current timing, whatever follows; when the input ends
at the marker or at that blank line, the returned track is the one parsed before the marker;
and no segment returned by `parseCaptions` has empty text. -/
theorem timing_without_text_no_segment :
    (∀ (ext : String) (st st1 : ParseState) (t blank : String) (later : List String),
        st.text = [] → TrimSpace t ≠ "" → isTiming ext (TrimSpace t) = true →
        TrimSpace blank = "" → step ext st t = some st1 →
        st1.captions = st.captions ∧ st1.text = []
          ∧ (st1.start, st1.end_) = lineTiming ext (TrimSpace t)
          ∧ parseLoop ext st [t, blank] = some st1
          ∧ parseLoop ext st (t :: blank :: later) = parseLoop ext st1 later)
    ∧ (∀ (ext : String) (before : List String) (st : ParseState) (t blank : String)
        (caps : List Caption),
        parseLoop ext ParseState.init before = some st → st.text = [] →
        TrimSpace t ≠ "" → isTiming ext (TrimSpace t) = true → TrimSpace blank = "" →
        parseCaptions (before ++ [t]) ext = some caps →
        caps = st.captions ∧ parseCaptions before ext = some caps
          ∧ parseCaptions (before ++ [t, blank]) ext = some caps)
    ∧ (∀ (lines : List String) (ext : String) (caps : List Caption),
        parseCaptions lines ext = some caps → ∀ c ∈ caps, c.Text ≠ "") := by
  refine ⟨?_, ?_, ?_⟩
  · intro ext st st1 t blank later htext hne ht hblank hstep
    have heq := step_timing_eq ext st st1 t hne ht hstep
    have hc : st1.captions = st.captions := by rw [heq]
    have htx : st1.text = [] := by rw [heq]; exact htext
    have hb := step_blank_of_no_text ext st1 blank htx hblank
    refine ⟨hc, htx, by rw [heq], ?_, ?_⟩
    · simp only [parseLoop, hstep, hb]
    · simp only [parseLoop, hstep, hb]
  · intro ext before st t blank caps hloop htext hne ht hblank hparse
    unfold parseCaptions at hparse ⊢
    rw [parseLoop_append, hloop] at hparse
    simp only [Option.some_bind, parseLoop] at hparse
    cases hstep : step ext st t with
    | none => rw [hstep] at hparse; exact absurd hparse (by simp)
    | some s1 =>
      rw [hstep] at hparse
      obtain ⟨hc, htx⟩ := step_timing ext st s1 t hne ht hstep
      simp only [Option.map_some', Option.some.injEq] at hparse
      have hs1 : s1.text = [] := htx.trans htext
      rw [flush_of_no_text s1 hs1, hc] at hparse
      subst hparse
      refine ⟨rfl, ?_, ?_⟩
      · rw [hloop, Option.map_some', flush_of_no_text st htext]
      · rw [parseLoop_append, hloop]
        simp only [Option.some_bind, parseLoop, hstep, step_blank ext s1 blank hblank,
          Option.map_some', flush_of_no_text s1 hs1, hc]
  · intro lines ext caps h
    unfold parseCaptions at h
    simp only [Option.map_eq_some'] at h
    obtain ⟨st1, hloop, rfl⟩ := h
    have hinit : TextInv ParseState.init := ⟨by simp [ParseState.init], by simp [ParseState.init]⟩
    exact (flush_TextInv st1 (parseLoop_TextInv ext lines _ _ hinit hloop)).1

/-- Instance of C7: after one closed SRT segment, a further timing marker with no text, at the
end of the input and before a later block of text. -/
theorem timing_without_text_no_segment_witness :
    ((parseLoop ".srt" ParseState.init ["00:00:01,000 --> 00:00:02,000", "Hello", ""]
          = some ⟨[⟨1, 2, "Hello"⟩], [], 1, 2⟩
        ∧ TrimSpace "00:00:05,000 --> 00:00:09,000" ≠ ""
        ∧ isTiming ".srt" (TrimSpace "00:00:05,000 --> 00:00:09,000") = true
        ∧ TrimSpace "  " = ""
        ∧ parseCaptions (["00:00:01,000 --> 00:00:02,000", "Hello", ""]
            ++ ["00:00:05,000 --> 00:00:09,000"]) ".srt" = some [⟨1, 2, "Hello"⟩])
      ∧ [⟨1, 2, "Hello"⟩] = (⟨[⟨1, 2, "Hello"⟩], [], 1, 2⟩ : ParseState).captions
      ∧ parseCaptions ["00:00:01,000 --> 00:00:02,000", "Hello", ""] ".srt"
          = some [⟨1, 2, "Hello"⟩]
      ∧ parseCaptions (["00:00:01,000 --> 00:00:02,000", "Hello", ""]
          ++ ["00:00:05,000 --> 00:00:09,000", "  "]) ".srt" = some [⟨1, 2, "Hello"⟩])
    ∧ (step ".srt" ⟨[⟨1, 2, "Hello"⟩], [], 1, 2⟩ "00:00:05,000 --> 00:00:09,000"
          = some ⟨[⟨1, 2, "Hello"⟩], [], 5, 9⟩
      ∧ (⟨[⟨1, 2, "Hello"⟩], [], 5, 9⟩ : ParseState).captions
          = (⟨[⟨1, 2, "Hello"⟩], [], 1, 2⟩ : ParseState).captions
      ∧ parseLoop ".srt" ⟨[⟨1, 2, "Hello"⟩], [], 1, 2⟩
            ("00:00:05,000 --> 00:00:09,000" :: "  " :: ["three"])
          = parseLoop ".srt" ⟨[⟨1, 2, "Hello"⟩], [], 5, 9⟩ ["three"]) :=
  have hstep : step ".srt" ⟨[⟨1, 2, "Hello"⟩], [], 1, 2⟩ "00:00:05,000 --> 00:00:09,000"
      = some ⟨[⟨1, 2, "Hello"⟩], [], 5, 9⟩ := by with_unfolding_all decide
  have h := timing_without_text_no_segment.1 ".srt" ⟨[⟨1, 2, "Hello"⟩], [], 1, 2⟩
    ⟨[⟨1, 2, "Hello"⟩], [], 5, 9⟩ "00:00:05,000 --> 00:00:09,000" "  " ["three"] rfl
    (by decide) (by decide) (by decide) hstep
  ⟨⟨⟨by with_unfolding_all decide, by decide, by decide, by decide,
        by with_unfolding_all decide⟩,
      timing_without_text_no_segment.2.1 ".srt"
        ["00:00:01,000 --> 00:00:02,000", "Hello", ""] ⟨[⟨1, 2, "Hello"⟩], [], 1, 2⟩
        "00:00:05,000 --> 00:00:09,000" "  " [⟨1, 2, "Hello"⟩]
        (by with_unfolding_all decide) rfl (by decide) (by decide) (by decide)
        (by with_unfolding_all decide)⟩,
    ⟨hstep, h.1, h.2.2.2.2⟩⟩

/-- C17, evaluated at the failing input: in the VTT block `one`, `a-->b`, `two` the middle
line is a timing line for the parser (it contains `-->`) standing between two text lines, and
the loop panics on it (`parts[1]` is out of range): no track is returned, so the two text
lines do not end up in one segment. -/
theorem vtt_timing_between_text_panics :
    TrimSpace "a-->b" ≠ ""
    ∧ isTiming ".vtt" (TrimSpace "a-->b") = true
    ∧ isTiming ".vtt" (TrimSpace "one") = false
    ∧ isTiming ".vtt" (TrimSpace "two") = false
    ∧ parseCaptions ["one", "a-->b", "two"] ".vtt" = none := by
  refine ⟨?_, ?_, ?_, ?_, ?_⟩ <;> decide

end CaptValidator
